import Mathlib

/-!
Verification of the mindmap-generation pipeline (`MindmapGenerator` in
`mindmap_generator.py`) against its natural-language specification.

The embedding models Python strings as `List Char`, JSON values as the
inductive `Json` below, and the external LLM service as an oracle
`Nat → Except Unit Str` giving, for each outbound call (numbered in the
order the pipeline issues them), either a transport error or the raw
response text.  The prompt templates sent to the service have no other
observable effect on the pipeline, so they are absorbed into the oracle.
Character-level operations (`lower`, `title`, whitespace) are modelled at
the ASCII level, which coincides with CPython on ASCII inputs.
-/

/-- Python strings are modelled as lists of characters. -/
abbrev Str := List Char

namespace Py

/-- The set matched by Python's regex `\s` and stripped by `str.strip()`
(ASCII fragment). -/
def isSpace (c : Char) : Bool :=
  c = ' ' || c = '\t' || c = '\n' || c = '\x0d' || c = '\x0b' || c = '\x0c'

/-- ASCII lowercase conversion, as `str.lower()` acts on ASCII input. -/
def lowChar (c : Char) : Char :=
  if 'A' ≤ c ∧ c ≤ 'Z' then Char.ofNat (c.toNat + 32) else c

/-- ASCII uppercase conversion. -/
def upChar (c : Char) : Char :=
  if 'a' ≤ c ∧ c ≤ 'z' then Char.ofNat (c.toNat - 32) else c

/-- ASCII alphabetic test (the "cased character" test of `str.title()`
restricted to ASCII). -/
def isAlphaChar (c : Char) : Bool :=
  ('a' ≤ c ∧ c ≤ 'z') || ('A' ≤ c ∧ c ≤ 'Z')

/-- `str.lower()`. -/
def lower (s : Str) : Str := s.map lowChar

/-- Helper for `title`: `prevAlpha` records whether the previous character
was alphabetic. -/
def titleGo (prevAlpha : Bool) : Str → Str
  | [] => []
  | c :: rest =>
    if isAlphaChar c then
      (if prevAlpha then lowChar c else upChar c) :: titleGo true rest
    else
      c :: titleGo false rest

/-- `str.title()`: first letter of every alphabetic run uppercased, the
rest lowercased. -/
def title (s : Str) : Str := titleGo false s

/-- `str.strip()`: remove leading and trailing whitespace. -/
def strip (s : Str) : Str :=
  ((s.dropWhile isSpace).reverse.dropWhile isSpace).reverse

/-- Helper for `splitWs`: `cur` is the current word, reversed. -/
def splitWsGo (cur : Str) : Str → List Str
  | [] => if cur.isEmpty then [] else [cur.reverse]
  | c :: rest =>
    if isSpace c then
      if cur.isEmpty then splitWsGo [] rest else cur.reverse :: splitWsGo [] rest
    else splitWsGo (c :: cur) rest

/-- `str.split()` with no separator: split on whitespace runs, dropping
empty pieces. -/
def splitWs (s : Str) : List Str := splitWsGo [] s

/-- `' '.join(ws)`. -/
def joinSpace : List Str → Str
  | [] => []
  | [w] => w
  | w :: rest => w ++ ' ' :: joinSpace rest

/-- `needle.isPrefixOf (hay.drop i)`: does `needle` occur in `hay` at
index `i`? -/
def subAt (needle hay : Str) (i : Nat) : Bool :=
  needle.isPrefixOf (hay.drop i)

/-- Python `hay.find(needle)`: index of the first occurrence, `none` when
absent. -/
def pyFind (needle hay : Str) : Option Nat :=
  (List.range (hay.length + 1)).find? (subAt needle hay)

/-- Python `hay.rfind(needle)`: index of the last occurrence. -/
def pyRFind (needle hay : Str) : Option Nat :=
  (List.range (hay.length + 1)).reverse.find? (subAt needle hay)

/-- Python `needle in hay` on strings. -/
def containsSub (needle hay : Str) : Bool :=
  (pyFind needle hay).isSome

/-- Python `hay.find(needle, start)`. -/
def pyFindFrom (needle hay : Str) (start : Nat) : Option Nat :=
  (pyFind needle (hay.drop start)).map (· + start)

/-- Python slice `s[a:b]` where `b` may be negative (counted from the
end), with the usual clamping. -/
def pySlice (s : Str) (a : Nat) (b : Int) : Str :=
  let bb : Int := if b < 0 then (s.length : Int) + b else b
  if bb ≤ (a : Int) then [] else (s.take (bb.toNat)).drop a

end Py

/-- JSON values as produced by `json.loads` (numbers restricted to the
integers actually exercised by the program). -/
inductive Json where
  | null
  | bool (b : Bool)
  | num (n : Int)
  | str (s : Str)
  | arr (elems : List Json)
  | obj (fields : List (Str × Json))

/-- Python exceptions distinguished by the analysis. -/
inductive PyErr where
  | keyError
  | typeError
  | attributeError
deriving DecidableEq

/-- Result of running a fragment of Python code. -/
abbrev PyResult (α : Type) := Except PyErr α

/-- Shorthand: a Lean string literal as a Python string. -/
def sk (s : String) : Str := s.toList

/-- Shorthand: a JSON string from a literal. -/
def njs (s : String) : Json := Json.str s.toList

/-- A JSON list of string literals. -/
def jstrs (l : List String) : Json := Json.arr (l.map njs)

/-- Decimal rendering of a natural number (f-string `{i}`). -/
def natStr (n : Nat) : Str := (Nat.repr n).toList

namespace Json

/-- Key lookup in a dict (keys are unique by construction). -/
def lookupF : List (Str × Json) → Str → Option Json
  | [], _ => none
  | p :: rest, k => if p.1 = k then some p.2 else lookupF rest k

/-- Dict assignment `d[k] = v`: replace in place if present, else append. -/
def setF : List (Str × Json) → Str → Json → List (Str × Json)
  | [], k, v => [(k, v)]
  | p :: rest, k, v => if p.1 = k then (k, v) :: rest else p :: setF rest k v

/-- Does the dict have key `k`? -/
def hasKeyF (fields : List (Str × Json)) (k : Str) : Bool :=
  (lookupF fields k).isSome

/-- Is this value a dict? -/
def isObj : Json → Bool
  | obj _ => true
  | _ => false

/-- Python `==` against a string literal (cross-type comparison is `False`). -/
def eqStr (j : Json) (k : Str) : Bool :=
  match j with
  | str s => s = k
  | _ => false

/-- Python `==` against an integer literal. -/
def eqNum (j : Json) (n : Int) : Bool :=
  match j with
  | num m => m = n
  | bool b => (if b then (1 : Int) else 0) = n
  | _ => false

/-- Python `key in j`: key membership for dicts, substring test for
strings, element equality for lists, `TypeError` otherwise. -/
def pyIn (k : Str) : Json → PyResult Bool
  | obj fields => .ok (hasKeyF fields k)
  | arr elems => .ok (elems.any (fun e => eqStr e k))
  | str s => .ok (Py.containsSub k s)
  | _ => .error .typeError

/-- Python `j[k]` for a string key. -/
def getItem (j : Json) (k : Str) : PyResult Json :=
  match j with
  | obj fields =>
    match lookupF fields k with
    | some v => .ok v
    | none => .error .keyError
  | _ => .error .typeError

/-- Python `j.get(k, default)`: `AttributeError` unless `j` is a dict. -/
def getDefault (j : Json) (k : Str) (default : Json) : PyResult Json :=
  match j with
  | obj fields =>
    match lookupF fields k with
    | some v => .ok v
    | none => .ok default
  | _ => .error .attributeError

/-- Python `j[k] = v` for a string key (functional model of the mutation). -/
def setItem (j : Json) (k : Str) (v : Json) : PyResult Json :=
  match j with
  | obj fields => .ok (obj (setF fields k v))
  | _ => .error .typeError

/-- Replace the value of key `k` in a dict, identity on non-dicts (used
only where the receiver is already known to be a dict). -/
def objSet (j : Json) (k : Str) (v : Json) : Json :=
  match j with
  | obj fields => obj (setF fields k v)
  | _ => j

/-- Python `len`. -/
def pyLen : Json → PyResult Int
  | arr elems => .ok elems.length
  | str s => .ok s.length
  | obj fields => .ok fields.length
  | _ => .error .typeError

/-- Python iteration `for x in j`: list elements, characters of a string,
keys of a dict; `TypeError` otherwise. -/
def iterElems : Json → PyResult (List Json)
  | arr elems => .ok elems
  | str s => .ok (s.map (fun c => str [c]))
  | obj fields => .ok (fields.map (fun p => str p.1))
  | _ => .error .typeError

/-- Python `j[:30]` as applied to a concept title: slices strings and
lists, `TypeError` otherwise. -/
def slice30 : Json → PyResult Json
  | str s => .ok (str (s.take 30))
  | arr elems => .ok (arr (elems.take 30))
  | _ => .error .typeError

/-- Right operand of `<` / `>` in Python `max`: numbers compare by value
(`bool` counts as 0/1), strings lexicographically, anything else raises. -/
def pyLt (a b : Json) : PyResult Bool :=
  match a, b with
  | num x, num y => .ok (x < y)
  | num x, bool y => .ok (x < (if y then (1 : Int) else 0))
  | bool x, num y => .ok ((if x then (1 : Int) else 0) < y)
  | bool x, bool y => .ok ((if x then (1 : Int) else 0) < (if y then (1 : Int) else 0))
  | str x, str y => .ok (decide (x < y))
  | _, _ => .error .typeError

/-- Python `max(l, default=0)`: keeps the current maximum, raising
`TypeError` on incomparable elements, and returning `0` on the empty
list. -/
def pyMaxFold (m : Json) : List Json → PyResult Json
  | [] => .ok m
  | x :: rest => do
    let b ← pyLt m x
    pyMaxFold (if b then x else m) rest

/-- Python `max(l, default=0)`. -/
def pyMax0 : List Json → PyResult Json
  | [] => .ok (num 0)
  | x :: rest => pyMaxFold x rest

end Json

namespace JParse

/-- Whitespace skipped by `json.loads`. -/
def isJWs (c : Char) : Bool := c = ' ' || c = '\t' || c = '\n' || c = '\x0d'

/-- Skip JSON whitespace. -/
def skipWs (s : Str) : Str := s.dropWhile isJWs

/-- Simple escape sequences of JSON strings (`\uXXXX` unsupported: such a
response is treated as a parse failure). -/
def escChar (c : Char) : Option Char :=
  if c = '"' then some '"'
  else if c = '\\' then some '\\'
  else if c = '/' then some '/'
  else if c = 'n' then some '\n'
  else if c = 't' then some '\t'
  else if c = 'r' then some '\x0d'
  else if c = 'b' then some '\x08'
  else if c = 'f' then some '\x0c'
  else none

/-- Parse the body of a JSON string after the opening quote. -/
def parseStringBody : Str → Option (Str × Str)
  | [] => none
  | '"' :: rest => some ([], rest)
  | '\\' :: c :: rest => do
    let e ← escChar c
    let (s, r) ← parseStringBody rest
    some (e :: s, r)
  | '\\' :: [] => none
  | c :: rest => do
    let (s, r) ← parseStringBody rest
    some (c :: s, r)

/-- Decimal digit test. -/
def isDigitChar (c : Char) : Bool := '0' ≤ c ∧ c ≤ '9'

/-- Consume a run of digits, accumulating the value. -/
def parseDigits (acc : Nat) : Str → Nat × Str
  | [] => (acc, [])
  | c :: rest =>
    if isDigitChar c then parseDigits (acc * 10 + (c.toNat - 48)) rest
    else (acc, c :: rest)

mutual

/-- Fuel-based recursive-descent JSON value parser (integer numbers only;
a float-bearing response is treated as a parse failure). -/
def parseVal : Nat → Str → Option (Json × Str)
  | 0, _ => none
  | fuel + 1, s =>
    match skipWs s with
    | 'n' :: 'u' :: 'l' :: 'l' :: r => some (.null, r)
    | 't' :: 'r' :: 'u' :: 'e' :: r => some (.bool true, r)
    | 'f' :: 'a' :: 'l' :: 's' :: 'e' :: r => some (.bool false, r)
    | '"' :: r => (parseStringBody r).map (fun p => (.str p.1, p.2))
    | '[' :: r =>
      (match skipWs r with
       | ']' :: r2 => some (.arr [], r2)
       | r1 => parseElems fuel r1 [])
    | '\x7b' :: r =>
      (match skipWs r with
       | '\x7d' :: r2 => some (.obj [], r2)
       | r1 => parseMembers fuel r1 [])
    | '-' :: c :: r =>
      if isDigitChar c then
        let (n, r2) := parseDigits (c.toNat - 48) r
        some (.num (-(n : Int)), r2)
      else none
    | c :: r =>
      if isDigitChar c then
        let (n, r2) := parseDigits (c.toNat - 48) r
        some (.num (n : Int), r2)
      else none
    | [] => none

/-- Parse the remaining elements of a non-empty array. -/
def parseElems : Nat → Str → List Json → Option (Json × Str)
  | 0, _, _ => none
  | fuel + 1, s, acc => do
    let (v, r) ← parseVal fuel s
    match skipWs r with
    | ',' :: r2 => parseElems fuel r2 (acc ++ [v])
    | ']' :: r2 => some (.arr (acc ++ [v]), r2)
    | _ => none

/-- Parse the remaining members of a non-empty object (a repeated key
keeps the last value, as `json.loads` does). -/
def parseMembers : Nat → Str → List (Str × Json) → Option (Json × Str)
  | 0, _, _ => none
  | fuel + 1, s, acc => do
    match skipWs s with
    | '"' :: r => do
      let (k, r1) ← parseStringBody r
      match skipWs r1 with
      | ':' :: r2 => do
        let (v, r3) ← parseVal fuel r2
        match skipWs r3 with
        | ',' :: r4 => parseMembers fuel r4 (Json.setF acc k v)
        | '\x7d' :: r4 => some (.obj (Json.setF acc k v), r4)
        | _ => none
      | _ => none
    | _ => none

end

end JParse

/-- `json.loads`: parse, requiring the whole input to be consumed. -/
def jsonLoads (s : Str) : Option Json :=
  match JParse.parseVal (2 * s.length + 4) s with
  | some (j, r) => if (JParse.skipWs r).isEmpty then some j else none
  | none => none

namespace MG

/-- The literal ```` ```json ````. -/
def fjson : Str := "```json".toList

/-- The literal ```` ``` ````. -/
def fticks : Str := "```".toList

/-- First phase of `_clean_json_response`: remove markdown code fences. -/
def fenceStrip (content : Str) : Str :=
  if Py.containsSub fjson content then
    let st := (Py.pyFind fjson content).getD 0 + 7
    let e : Int :=
      match Py.pyFindFrom fticks content st with
      | some i => (i : Int)
      | none => -1
    Py.pySlice content st e
  else if Py.containsSub fticks content then
    let st := (Py.pyFind fticks content).getD 0 + 3
    let e : Int :=
      match Py.pyRFind fticks content with
      | some i => (i : Int)
      | none => -1
    Py.pySlice content st e
  else content

/-- Second phase: cut to the outermost `\x7b ... \x7d` boundaries when
present. -/
def braceExtract (content : Str) : Str :=
  match Py.pyFind ['\x7b'] content, Py.pyRFind ['\x7d'] content with
  | some i, some j =>
    if (j : Int) + 1 > (i : Int) then Py.pySlice content i ((j : Int) + 1) else content
  | _, _ => content

/-- Third phase: `content.replace('\n', ' ').replace('\t', ' ')`. -/
def nlReplace (content : Str) : Str :=
  content.map (fun c => if c = '\n' then ' ' else if c = '\t' then ' ' else c)

/-- Fourth phase, the single left-to-right pass of
`re.sub(r',(\s*[\x7d\]])', r'\1', content)`.  State `none` scans for a
comma; state `some ws` is just after a comma with the whitespace run `ws`
consumed so far.  A closing brace or bracket completes a match (the comma
is dropped and scanning resumes after the bracket); any other character
is a failed match at that comma, whose characters are re-scanned. -/
def rtcGo : Option Str → Str → Str
  | none, [] => []
  | none, c :: rest => if c = ',' then rtcGo (some []) rest else c :: rtcGo none rest
  | some ws, [] => ',' :: ws
  | some ws, c :: rest =>
    if Py.isSpace c then rtcGo (some (ws ++ [c])) rest
    else if c = '\x7d' ∨ c = ']' then ws ++ c :: rtcGo none rest
    else if c = ',' then ',' :: ws ++ rtcGo (some []) rest
    else ',' :: ws ++ c :: rtcGo none rest

/-- The comma-removal pass. -/
def rtc (s : Str) : Str := rtcGo none s

/-- `_clean_json_response`. -/
def cleanJsonResponse (content : Str) : Str :=
  Py.strip (rtc (nlReplace (braceExtract (fenceStrip content))))

/-- Short-circuiting `all(key in d for key in ks)`. -/
def allIn (ks : List Str) (d : Json) : PyResult Bool :=
  match ks with
  | [] => .ok true
  | k :: rest => do
    let b ← Json.pyIn k d
    if b then allIn rest d else pure false

/-- The five required top-level keys of stage 1. -/
def requiredKeys1 : List Str :=
  ["main_topic".toList, "topic_description".toList, "mindmap_type".toList,
   "concepts".toList, "relationships".toList]

/-- The nine required keys of the first concept. -/
def conceptKeys1 : List Str :=
  ["id".toList, "title".toList, "description".toList, "level".toList,
   "what".toList, "why".toList, "how".toList, "examples".toList, "metrics".toList]

/-- `_validate_detailed_parsed_data`. -/
def validateDetailedParsedData (data : Json) : PyResult Bool := do
  let b ← allIn requiredKeys1 data
  if !b then pure false
  else do
    let c ← data.getItem (sk "concepts")
    match c with
    | .arr [] => pure false
    | .arr (c0 :: _) => do
      let b2 ← allIn conceptKeys1 c0
      if !b2 then pure false else pure true
    | _ => pure false

/-- The five required top-level keys of stage 2. -/
def requiredKeys2 : List Str :=
  ["title".toList, "description".toList, "layout_type".toList,
   "nodes".toList, "edges".toList]

/-- The eight required keys of the first node. -/
def nodeKeys2 : List Str :=
  ["id".toList, "title".toList, "description".toList, "x".toList, "y".toList,
   "details".toList, "processes".toList, "considerations".toList]

/-- `_validate_detailed_structured_data`. -/
def validateDetailedStructuredData (data : Json) : PyResult Bool := do
  let b ← allIn requiredKeys2 data
  if !b then pure false
  else do
    let c ← data.getItem (sk "nodes")
    match c with
    | .arr [] => pure false
    | .arr (n0 :: _) => do
      let b2 ← allIn nodeKeys2 n0
      if !b2 then pure false else pure true
    | _ => pure false

end MG


/-- Python `int` coercion as used in arithmetic on a concept level
(`bool` arithmetic works, anything non-numeric raises). -/
def pyToInt : Json → PyResult Int
  | .num n => .ok n
  | .bool b => .ok (if b then 1 else 0)
  | _ => .error .typeError

/-- Python `repr` of a value (quote escaping inside strings is not
modelled; no claim depends on it). -/
def pyReprJ : Json → Str
  | .null => sk "None"
  | .bool b => if b then sk "True" else sk "False"
  | .num n => (toString n).toList
  | .str s => '\'' :: s ++ ['\'']
  | .arr l => '[' :: List.intercalate (sk ", ") (l.attach.map (fun x => pyReprJ x.1)) ++ [']']
  | .obj fs =>
    '\x7b' ::
      List.intercalate (sk ", ")
        (fs.attach.map (fun p => '\'' :: p.1.1 ++ '\'' :: ':' :: ' ' :: pyReprJ p.1.2))
      ++ ['\x7d']
decreasing_by
  · have h := List.sizeOf_lt_of_mem x.2
    simp only [Json.arr.sizeOf_spec]; omega
  · have h := List.sizeOf_lt_of_mem p.2
    have h2 : sizeOf p.1.2 < sizeOf p.1 := by
      obtain ⟨a, b⟩ := p.1; simp only [Prod.mk.sizeOf_spec]; omega
    simp only [Json.obj.sizeOf_spec]; omega

/-- Python `str()` of a value interpolated into an f-string. -/
def pyStrJ (j : Json) : Str :=
  match j with
  | .str s => s
  | .num n => (toString n).toList
  | .bool b => if b then sk "True" else sk "False"
  | .null => sk "None"
  | j => pyReprJ j

namespace MG

/-- The keyword sets of the fallback domain classifier
(`_create_intelligent_fallback`, lines 464–471). -/
def mlWords : List Str :=
  [sk "machine learning", sk "ml", sk "ai", sk "model", sk "algorithm", sk "data"]

/-- Software-architecture keywords. -/
def saWords : List Str :=
  [sk "architecture", sk "system", sk "software", sk "api", sk "database"]

/-- Business-strategy keywords. -/
def bizWords : List Str :=
  [sk "business", sk "strategy", sk "marketing", sk "sales", sk "revenue"]

/-- Education keywords. -/
def eduWords : List Str :=
  [sk "learn", sk "education", sk "course", sk "study", sk "training"]

/-- The fallback domain classifier: keyword substring match against the
lowercased prompt, first hit wins. -/
def classifyDomain (prompt : Str) : Str :=
  let pl := Py.lower prompt
  if mlWords.any (fun w => Py.containsSub w pl) then sk "machine_learning"
  else if saWords.any (fun w => Py.containsSub w pl) then sk "software_architecture"
  else if bizWords.any (fun w => Py.containsSub w pl) then sk "business_strategy"
  else if eduWords.any (fun w => Py.containsSub w pl) then sk "education"
  else sk "general"

/-- `_get_domain_tools`. -/
def getDomainTools (domain : Str) : Json :=
  if domain = sk "machine_learning" then jstrs ["Python", "TensorFlow", "scikit-learn", "MLflow"]
  else if domain = sk "software_architecture" then jstrs ["Docker", "Kubernetes", "AWS/Azure", "MongoDB"]
  else if domain = sk "business_strategy" then jstrs ["Excel", "Tableau", "Salesforce", "HubSpot"]
  else if domain = sk "education" then jstrs ["LMS Platform", "Assessment Tools", "Video Conferencing", "Analytics"]
  else jstrs ["Generic Tool 1", "Platform 2", "Framework 3"]

/-- `_get_domain_stakeholders`. -/
def getDomainStakeholders (domain : Str) : Json :=
  if domain = sk "machine_learning" then jstrs ["Data Scientists", "ML Engineers", "Product Managers"]
  else if domain = sk "software_architecture" then jstrs ["Software Architects", "DevOps Engineers", "QA Team"]
  else if domain = sk "business_strategy" then jstrs ["Business Analysts", "Executive Team", "Marketing"]
  else if domain = sk "education" then jstrs ["Instructors", "Students", "Academic Administration"]
  else jstrs ["Project Manager", "Technical Team", "Stakeholders"]

/-- The stop-word set of `_create_intelligent_fallback` (line 475). -/
def stopWords : List Str :=
  [sk "a", sk "an", sk "the", sk "and", sk "or", sk "but", sk "in", sk "on", sk "at",
   sk "to", sk "for", sk "of", sk "with", sk "by", sk "from", sk "about", sk "how",
   sk "what", sk "when", sk "where", sk "why", sk "create", sk "make", sk "generate",
   sk "mindmap", sk "map", sk "system", sk "design"]

/-- The root concept of the intelligent fallback (lines 481–511). -/
def rootConcept (mainTopic domainS domain : Str) : Json :=
  Json.obj
    [(sk "id", njs "root"),
     (sk "title", Json.str mainTopic),
     (sk "description", Json.str (sk "Comprehensive " ++ domainS ++ sk " system addressing " ++ Py.lower mainTopic)),
     (sk "level", Json.num 0),
     (sk "parent", Json.null),
     (sk "category", njs "system"),
     (sk "node_type", njs "start"),
     (sk "what", Json.str (sk "Complete " ++ Py.lower mainTopic ++ sk " implementation")),
     (sk "why", Json.str (sk "Addresses critical business need in " ++ domainS)),
     (sk "how", njs "Systematic approach with proven methodologies"),
     (sk "examples", Json.arr
       [Json.str (sk "Industry example 1 for " ++ mainTopic),
        Json.str (sk "Use case in " ++ domain)]),
     (sk "metrics", jstrs ["Success rate: >90%", "Implementation time: 3-6 months", "ROI: 2-5x"]),
     (sk "details", Json.arr
       [Json.str (sk "Core architecture for " ++ Py.lower mainTopic),
        njs "Scalable and maintainable design",
        njs "Integration with existing systems"]),
     (sk "processes", jstrs
       ["Phase 1: Requirements and planning", "Phase 2: Design and development",
        "Phase 3: Testing and deployment", "Phase 4: Monitoring and optimization"]),
     (sk "considerations", jstrs
       ["Risk mitigation and contingency planning",
        "Resource allocation and timeline management"]),
     (sk "tools_technologies", getDomainTools domain),
     (sk "stakeholders", getDomainStakeholders domain)]

/-- The `i`-th process concept of the intelligent fallback (lines 526–557);
`p` is the stage name, `flowLen` the length of the process flow. -/
def procConcept (flowLen : Nat) (mainTopic domain : Str) (i : Nat) (p : Str) : Json :=
  Json.obj
    [(sk "id", Json.str (sk "process_" ++ natStr (i + 1))),
     (sk "title", Json.str p),
     (sk "description", Json.str (sk "Comprehensive " ++ Py.lower p ++ sk " stage with detailed implementation")),
     (sk "level", Json.num 1),
     (sk "parent", njs "root"),
     (sk "category", njs "process"),
     (sk "node_type", if i < flowLen - 1 then njs "process" else njs "outcome"),
     (sk "what", Json.str (sk "Execute " ++ Py.lower p ++ sk " with best practices")),
     (sk "why", Json.str (sk "Critical step for successful " ++ Py.lower mainTopic)),
     (sk "how", Json.str (sk "Systematic approach to " ++ Py.lower p)),
     (sk "examples", Json.arr
       [Json.str (sk "Example method for " ++ p),
        Json.str (sk "Tool/technique for " ++ p)]),
     (sk "metrics", Json.arr
       [Json.str (p ++ sk " completion: 100%"),
        njs "Quality score: >85%",
        njs "Timeline adherence: >90%"]),
     (sk "details", Json.arr
       [Json.str (sk "Key deliverables for " ++ Py.lower p),
        njs "Quality criteria and acceptance tests",
        njs "Dependencies and prerequisites"]),
     (sk "processes", Json.arr
       [Json.str (sk "Step 1: " ++ p ++ sk " planning and preparation"),
        Json.str (sk "Step 2: " ++ p ++ sk " execution"),
        Json.str (sk "Step 3: " ++ p ++ sk " validation and review")]),
     (sk "considerations", Json.arr
       [Json.str (sk "Common challenges in " ++ Py.lower p),
        Json.str (sk "Best practices for " ++ Py.lower p)]),
     (sk "tools_technologies", getDomainTools domain),
     (sk "stakeholders", getDomainStakeholders domain)]

/-- The `i`-th relationship of the intelligent fallback (lines 559–564). -/
def stageRel (flow : List Str) (i : Nat) (p : Str) : Json :=
  Json.obj
    [(sk "from", if i = 0 then njs "root" else Json.str (sk "process_" ++ natStr i)),
     (sk "to", Json.str (sk "process_" ++ natStr (i + 1))),
     (sk "type", if i = 0 then njs "initiates" else njs "leads_to"),
     (sk "description", Json.str
       (sk "Sequential flow from " ++
        (if i = 0 then sk "start" else (flow.getD (i - 1) [])) ++
        sk " to " ++ p))]

/-- `domain.replace('_', ' ')`. -/
def domainSpaced (domain : Str) : Str :=
  domain.map (fun c => if c = '_' then ' ' else c)

/-- `' '.join(prompt.split()[0:4]).title()` (line 478). -/
def mainTopicOf (prompt : Str) : Str :=
  Py.title (Py.joinSpace ((Py.splitWs prompt).take 4))

/-- The non-stopword prompt tokens longer than three characters, first
eight (line 476). -/
def keyWordsOf (prompt : Str) : List Str :=
  ((Py.splitWs prompt).filter
    (fun w => !(stopWords.contains (Py.lower w)) && decide (w.length > 3))).take 8

/-- The domain-specific process flow (lines 516–523). -/
def processFlowOf (prompt : Str) : List Str :=
  let domain := classifyDomain prompt
  if domain = sk "machine_learning" then
    [sk "Data Collection", sk "Feature Engineering", sk "Model Training",
     sk "Validation", sk "Deployment", sk "Monitoring"]
  else if domain = sk "software_architecture" then
    [sk "Requirements Analysis", sk "System Design", sk "Implementation",
     sk "Testing", sk "Deployment", sk "Maintenance"]
  else if domain = sk "business_strategy" then
    [sk "Market Analysis", sk "Strategy Planning", sk "Resource Allocation",
     sk "Execution", sk "Performance Tracking"]
  else
    if (keyWordsOf prompt).length ≥ 6 then (keyWordsOf prompt).take 6
    else [sk "Planning", sk "Design", sk "Implementation", sk "Testing", sk "Deployment"]

/-- `_create_intelligent_fallback`. -/
def createIntelligentFallback (prompt : Str) : Json :=
  let domain := classifyDomain prompt
  let domainS := domainSpaced domain
  let mainTopic := mainTopicOf prompt
  let flow : List Str := processFlowOf prompt
  Json.obj
    [(sk "main_topic", Json.str mainTopic),
     (sk "topic_description", Json.str
       (sk "Comprehensive " ++ domainS ++ sk " implementation covering all critical aspects")),
     (sk "mindmap_type", njs "flowchart"),
     (sk "domain", Json.str domain),
     (sk "complexity_level", njs "intermediate"),
     (sk "workflow_type", njs "sequential"),
     (sk "concepts", Json.arr
       (rootConcept mainTopic domainS domain ::
        flow.enum.map (fun q => procConcept flow.length mainTopic domain q.1 q.2))),
     (sk "relationships", Json.arr (flow.enum.map (fun q => stageRel flow q.1 q.2)))]

/-- The `color_map.get(node_type, "#3498db")` lookup of the stage-2
fallback (lines 698–705, 735); an unhashable key raises `TypeError`. -/
def colorGet (nodeType : Json) : PyResult Str :=
  match nodeType with
  | .str s =>
    .ok (if s = sk "start" then sk "#2c3e50"
      else if s = sk "process" then sk "#3498db"
      else if s = sk "decision" then sk "#e74c3c"
      else if s = sk "outcome" then sk "#27ae60"
      else if s = sk "checkpoint" then sk "#f39c12"
      else if s = sk "end" then sk "#9b59b6"
      else sk "#3498db")
  | .arr _ => .error .typeError
  | .obj _ => .error .typeError
  | _ => .ok (sk "#3498db")

/-- The position computation of the stage-2 fallback (lines 717–724):
root-level nodes get the fixed anchor, others an offset proportional to
`level` (raising `TypeError` on a non-numeric level). -/
def nodePos (i : Nat) (level : Json) : PyResult (Int × Int × Int × Int) :=
  if Json.eqNum level 0 then
    pure ((600 : Int), (150 : Int), (300 : Int), (100 : Int))
  else do
    let lv ← pyToInt level
    pure (600 + (lv - 1) * 50, 150 + (i : Int) * 200, (250 : Int), (80 : Int))

/-- One node of the stage-2 fallback layout (lines 713–750). -/
def buildNode (i : Nat) (concept : Json) : PyResult Json := do
  let nodeType ← concept.getDefault (sk "node_type") (njs "process")
  let level ← concept.getDefault (sk "level") (Json.num 0)
  let pos ← nodePos i level
  let cid ← concept.getItem (sk "id")
  let titleRaw ← concept.getItem (sk "title")
  let titleS ← Json.slice30 titleRaw
  let desc ← concept.getDefault (sk "description") (njs "Process component")
  let color ← colorGet nodeType
  let category ← concept.getDefault (sk "category") (njs "process")
  let whatV ← concept.getDefault (sk "what") (njs "Process step")
  let whyV ← concept.getDefault (sk "why") (njs "Critical for success")
  let howV ← concept.getDefault (sk "how") (njs "Systematic implementation")
  let examples ← concept.getDefault (sk "examples") (jstrs ["Example 1", "Example 2"])
  let metrics ← concept.getDefault (sk "metrics") (jstrs ["Metric 1", "Metric 2"])
  let details ← concept.getDefault (sk "details") (jstrs ["Detail 1", "Detail 2"])
  let processes ← concept.getDefault (sk "processes") (jstrs ["Step 1", "Step 2"])
  let considerations ← concept.getDefault (sk "considerations") (jstrs ["Consideration 1"])
  let tools ← concept.getDefault (sk "tools_technologies") (jstrs ["Tool 1"])
  let stakeholders ← concept.getDefault (sk "stakeholders") (jstrs ["Role 1"])
  pure (Json.obj
    [(sk "id", cid),
     (sk "title", titleS),
     (sk "description", desc),
     (sk "level", level),
     (sk "x", Json.num pos.1),
     (sk "y", Json.num pos.2.1),
     (sk "width", Json.num pos.2.2.1),
     (sk "height", Json.num pos.2.2.2),
     (sk "color", Json.str color),
     (sk "shape", if Json.eqStr nodeType (sk "decision") then njs "diamond" else njs "rectangle"),
     (sk "category", category),
     (sk "node_type", nodeType),
     (sk "what", whatV),
     (sk "why", whyV),
     (sk "how", howV),
     (sk "examples", examples),
     (sk "metrics", metrics),
     (sk "details", details),
     (sk "processes", processes),
     (sk "considerations", considerations),
     (sk "tools_technologies", tools),
     (sk "stakeholders", stakeholders),
     (sk "expanded", Json.bool (Json.eqNum level 0))])

/-- One edge of the stage-2 fallback layout (lines 754–764). -/
def buildEdge (i : Nat) (rel : Json) : PyResult Json := do
  let f ← rel.getItem (sk "from")
  let t ← rel.getItem (sk "to")
  let label ← rel.getDefault (sk "type") (njs "connects")
  let desc ← rel.getDefault (sk "description") (njs "Process flow")
  pure (Json.obj
    [(sk "id", Json.str (sk "edge_" ++ natStr (i + 1))),
     (sk "from", f),
     (sk "to", t),
     (sk "label", label),
     (sk "description", desc),
     (sk "color", njs "#34495e"),
     (sk "weight", Json.num 3),
     (sk "style", njs "solid")])

/-- The node-building step of `_create_detailed_fallback_structure`
(lines 708–750): the vertical flowchart layout is built only for the
`flowchart` and `sequential` workflow types; otherwise no nodes are
produced. -/
def buildNodesIf (workflow concepts : Json) : PyResult (List Json) :=
  if Json.eqStr workflow (sk "flowchart") || Json.eqStr workflow (sk "sequential") then do
    let elems ← Json.iterElems concepts
    elems.enum.mapM (fun q => buildNode q.1 q.2)
  else pure []

/-- `_create_detailed_fallback_structure`. -/
def createDetailedFallbackStructure (parsed : Json) : PyResult Json := do
  let title ← parsed.getDefault (sk "main_topic") (njs "Mindmap")
  let description ← parsed.getDefault (sk "topic_description") (njs "Comprehensive system analysis")
  let concepts ← parsed.getDefault (sk "concepts") (Json.arr [])
  let domain ← parsed.getDefault (sk "domain") (njs "general")
  let workflow ← parsed.getDefault (sk "workflow_type") (njs "sequential")
  let nodes ← buildNodesIf workflow concepts
  let rels ← parsed.getDefault (sk "relationships") (Json.arr [])
  let relElems ← Json.iterElems rels
  let edges ← relElems.enum.mapM (fun q => buildEdge q.1 q.2)
  let complexity ← parsed.getDefault (sk "complexity_level") (njs "intermediate")
  let levels ← nodes.mapM (fun nd => nd.getDefault (sk "level") (Json.num 0))
  let maxDepth ← Json.pyMax0 levels
  pure (Json.obj
    [(sk "title", title),
     (sk "description", description),
     (sk "layout_type", njs "flowchart"),
     (sk "domain", domain),
     (sk "complexity", complexity),
     (sk "workflow_type", workflow),
     (sk "metadata", Json.obj
       [(sk "total_nodes", Json.num nodes.length),
        (sk "max_depth", maxDepth),
        (sk "creation_context", njs "Enhanced intelligent structure")]),
     (sk "nodes", Json.arr nodes),
     (sk "edges", Json.arr edges)])

end MG

namespace MG

/-- Literal segment of the fallback XML before the metadata title. -/
def xmlSegA : Str :=
  sk "<?xml version=\"1.0\" encoding=\"UTF-8\"?>\n<mindmap version=\"2.0\" editable=\"true\">\n    <metadata>\n        <title>"

/-- Segment between metadata title and description. -/
def xmlSegB : Str := sk "</title>\n        <description>"

/-- Segment between metadata description and timestamp. -/
def xmlSegC : Str := sk "</description>\n        <created_at>"

/-- Segment between timestamp and the generation-context prompt. -/
def xmlSegD : Str :=
  sk "</created_at>\n        <layout_type>hierarchical</layout_type>\n        <domain>general</domain>\n        <complexity>intermediate</complexity>\n        <total_nodes>1</total_nodes>\n        <max_depth>0</max_depth>\n        <generation_context>Generated from: "

/-- Segment between the prompt and the node-content title. -/
def xmlSegE : Str :=
  sk "</generation_context>\n    </metadata>\n    <nodes>\n        <node id=\"root\" level=\"0\" category=\"core\" expanded=\"true\">\n            <content>\n                <title>"

/-- Segment between node-content title and description. -/
def xmlSegF : Str := sk "</title>\n                <description>"

/-- Closing segment after the node-content description. -/
def xmlSegG : Str :=
  sk "</description>\n            </content>\n            <position x=\"400\" y=\"300\" width=\"200\" height=\"80\"/>\n            <style color=\"#2c3e50\" shape=\"rectangle\" border=\"solid\"/>\n            <details>\n                <item>Core concept requiring systematic approach</item>\n                <item>Multiple interconnected components</item>\n            </details>\n            <processes>\n                <step>Initial analysis and planning</step>\n                <step>Implementation and execution</step>\n            </processes>\n            <considerations>\n                <point>Consider stakeholder requirements</point>\n                <point>Ensure scalable solution</point>\n            </considerations>\n        </node>\n    </nodes>\n    <edges>\n    </edges>\n</mindmap>"

/-- The f-string of `_create_detailed_fallback_xml` (lines 789–826),
with its four holes. -/
def fallbackXmlText (title desc ts prompt : Str) : Str :=
  xmlSegA ++ title ++ xmlSegB ++ desc ++ xmlSegC ++ ts ++ xmlSegD ++ prompt ++
    xmlSegE ++ title ++ xmlSegF ++ desc ++ xmlSegG

/-- `_create_detailed_fallback_xml`; `ts` models `datetime.now().isoformat()`. -/
def createDetailedFallbackXml (structuredData : Json) (originalPrompt ts : Str) :
    PyResult Str := do
  let titleJ ← structuredData.getDefault (sk "title") (njs "Mindmap")
  let descJ ← structuredData.getDefault (sk "description") (njs "Comprehensive mindmap")
  pure (fallbackXmlText (pyStrJ titleJ) (pyStrJ descJ) ts originalPrompt)

/-- The markdown-fence stripping for stage 3 and 4 responses
(lines 349–357 and 397–405). -/
def stripXmlFence (t : Str) : Str :=
  let x := Py.strip t
  let x := if (sk "```xml").isPrefixOf x then x.drop 6 else x
  let x := if (sk "```").isSuffixOf x then x.take (x.length - 3) else x
  Py.strip x

/-- The metadata normalization of the stage-2 success path (lines
256–257): recompute `total_nodes` and `max_depth` on the validated
layout. -/
def finalizeStructured (d : Json) : PyResult Json := do
  let nodes1 ← d.getDefault (sk "nodes") (Json.arr [])
  let n ← Json.pyLen nodes1
  let md ← d.getItem (sk "metadata")
  let md1 ← md.setItem (sk "total_nodes") (Json.num n)
  let d1 := d.objSet (sk "metadata") md1
  let nodes2 ← d1.getDefault (sk "nodes") (Json.arr [])
  let elems ← Json.iterElems nodes2
  let levels ← elems.mapM (fun nd => nd.getDefault (sk "level") (Json.num 0))
  let mx ← Json.pyMax0 levels
  let md2 ← d1.getItem (sk "metadata")
  let md3 ← md2.setItem (sk "max_depth") mx
  pure (d1.objSet (sk "metadata") md3)

/-- The external model service: call index to transport error or raw
response text. -/
abbrev Oracle := Nat → Except Unit Str

/-- The body of one stage-1 attempt (lines 127–149): any raised error is
caught by the surrounding handlers and the attempt counts as failed. -/
def parseAttempt (resp : Except Unit Str) : Option Json :=
  match resp with
  | .error _ => none
  | .ok text =>
    match jsonLoads (cleanJsonResponse (Py.strip text)) with
    | none => none
    | some d =>
      match validateDetailedParsedData d with
      | .ok true => some d
      | _ => none

/-- The body of one stage-2 attempt (lines 244–268), including the
metadata normalization, whose exceptions are also caught. -/
def structureAttempt (resp : Except Unit Str) : Option Json :=
  match resp with
  | .error _ => none
  | .ok text =>
    match jsonLoads (cleanJsonResponse (Py.strip text)) with
    | none => none
    | some d =>
      match validateDetailedStructuredData d with
      | .ok true =>
        match finalizeStructured d with
        | .ok d2 => some d2
        | .error _ => none
      | _ => none

/-- Run up to `n` attempts, consuming one oracle call each; returns the
first success together with the next call index. -/
def runAttempts (attempt : Except Unit Str → Option Json) (oracle : Oracle)
    (k : Nat) : Nat → Option (Json × Nat)
  | 0 => none
  | n + 1 =>
    match attempt (oracle k) with
    | some d => some (d, k + 1)
    | none => runAttempts attempt oracle (k + 1) n

/-- `_parse_concepts_detailed`: three attempts, then the intelligent
fallback.  Also returns the next oracle call index. -/
def parseConceptsDetailed (oracle : Oracle) (prompt : Str) : Json × Nat :=
  match runAttempts parseAttempt oracle 0 3 with
  | some (d, k) => (d, k)
  | none => (createIntelligentFallback prompt, 3)

/-- `_structure_knowledge_detailed`: the structuring prompt is built
first (lines 157–239), reading `parsed` through four `.get` calls
outside any handler; then three attempts, then the fallback structure. -/
def structureKnowledgeDetailed (oracle : Oracle) (k : Nat) (parsed : Json) :
    PyResult Json × Nat :=
  let pre : PyResult Unit := do
    let _ ← parsed.getDefault (sk "main_topic") (njs "Mindmap")
    let _ ← parsed.getDefault (sk "topic_description") (njs "Comprehensive mindmap")
    let _ ← parsed.getDefault (sk "domain") (njs "general")
    let _ ← parsed.getDefault (sk "complexity_level") (njs "intermediate")
    pure ()
  match pre with
  | .error e => (.error e, k)
  | .ok _ =>
    match runAttempts structureAttempt oracle k 3 with
    | some (d, k2) => (.ok d, k2)
    | none => (createDetailedFallbackStructure parsed, k + 3)

/-- `_generate_detailed_xml`: single call; fence stripping on success,
fallback XML on any service error. -/
def generateDetailedXml (oracle : Oracle) (k : Nat) (st : Json) (prompt ts : Str) :
    PyResult Str × Nat :=
  match oracle k with
  | .ok t => (.ok (stripXmlFence t), k + 1)
  | .error _ => (createDetailedFallbackXml st prompt ts, k + 1)

/-- `_validate_xml`: single call; fence stripping on success, input
passed through unchanged on any service error. -/
def validateXml (oracle : Oracle) (k : Nat) (xml : Str) : Str × Nat :=
  match oracle k with
  | .ok t => (stripXmlFence t, k + 1)
  | .error _ => (xml, k + 1)

/-- `generate_mindmap`: the four stages in sequence.  `ts` models the
timestamp `datetime.now().isoformat()` read in the stage-3 fallback.  An
uncaught exception is an `.error` result. -/
def generateMindmap (oracle : Oracle) (prompt ts : Str) : PyResult Str :=
  let pk := parseConceptsDetailed oracle prompt
  match structureKnowledgeDetailed oracle pk.2 pk.1 with
  | (.error e, _) => .error e
  | (.ok st, k2) =>
    match generateDetailedXml oracle k2 st prompt ts with
    | (.error e, _) => .error e
    | (.ok xml, k3) => .ok (validateXml oracle k3 xml).1

end MG

/-- The always-failing oracle: the external service is unreachable for
every call. -/
def failOracle : MG.Oracle := fun _ => .error ()

/-- Claim-side lookup: the value of key `k` when `j` is a dict. -/
def jGet (j : Json) (k : Str) : Option Json :=
  match j with
  | .obj fields => Json.lookupF fields k
  | _ => none

/-- Claim-side: the nodes list of a layout. -/
def nodesOfJ (st : Json) : List Json :=
  match jGet st (sk "nodes") with
  | some (.arr l) => l
  | _ => []

/-- Claim-side: the `level` of one node, default `0`, when the node is a
dict and the stored level is a number. -/
def levelOfNode (nd : Json) : Option Int :=
  match nd with
  | .obj fs =>
    match Json.lookupF fs (sk "level") with
    | some (.num n) => some n
    | none => some (0 : Int)
    | _ => none
  | _ => none

/-- Claim-side: the `level` values of a node list, when every node is a
dict whose `level` (default `0`) is a number. -/
def levelsOfNodes : List Json → Option (List Int)
  | [] => some []
  | nd :: rest =>
    match levelOfNode nd, levelsOfNodes rest with
    | some a, some as => some (a :: as)
    | _, _ => none

/-- Claim-side: the maximum of a list of integers, `0` for the empty
list (the spec's "maximum level value over the nodes, 0 for an empty
list"). -/
def maxLevelSpec : List Int → Int
  | [] => 0
  | x :: xs => xs.foldl max x

/-- A concept the stage-2 fallback can read without raising: a dict with
an `id`, a sliceable `title`, a numeric (or absent) `level` and a
hashable (or absent) `node_type`. -/
def conceptSafeB (c : Json) : Bool :=
  match c with
  | .obj fs =>
    (Json.lookupF fs (sk "id")).isSome &&
    (match Json.lookupF fs (sk "title") with
     | some (.str _) => true
     | some (.arr _) => true
     | _ => false) &&
    (match Json.lookupF fs (sk "level") with
     | none => true
     | some (.num _) => true
     | some (.bool _) => true
     | _ => false) &&
    (match Json.lookupF fs (sk "node_type") with
     | none => true
     | some (.str _) => true
     | some (.num _) => true
     | some (.bool _) => true
     | some .null => true
     | _ => false)
  | _ => false

/-- A relationship the stage-2 fallback can read: a dict with `from` and
`to`. -/
def relSafeB (r : Json) : Bool :=
  match r with
  | .obj fs => (Json.lookupF fs (sk "from")).isSome && (Json.lookupF fs (sk "to")).isSome
  | _ => false

/-- A stage-1 result on which `_create_detailed_fallback_structure`
cannot raise: a dict whose `concepts` (default `[]`) is a list of safe
concepts and whose `relationships` (default `[]`) is a list of safe
relationships. -/
def fallbackSafeB (d : Json) : Bool :=
  match d with
  | .obj fs =>
    (match Json.lookupF fs (sk "concepts") with
     | none => true
     | some (.arr l) => l.all conceptSafeB
     | some _ => false) &&
    (match Json.lookupF fs (sk "relationships") with
     | none => true
     | some (.arr l) => l.all relSafeB
     | some _ => false)
  | _ => false

/-- The stage-2 fallback builds its node list only when `workflow_type`
(default `"sequential"`) equals `"flowchart"` or `"sequential"`. -/
def workflowOkB (fs : List (Str × Json)) : Bool :=
  match Json.lookupF fs (sk "workflow_type") with
  | none => true
  | some w => Json.eqStr w (sk "flowchart") || Json.eqStr w (sk "sequential")

/-- Shape of a node built by the stage-2 fallback: a dict carrying the
eight keys the stage-2 validator checks, with a numeric-or-boolean
`level`. -/
def nodeShapeB (nd : Json) : Bool :=
  match nd with
  | .obj fs =>
    MG.nodeKeys2.all (Json.hasKeyF fs) &&
    (match Json.lookupF fs (sk "level") with
     | some (.num _) => true
     | some (.bool _) => true
     | _ => false)
  | _ => false

/-- Number of positions at which `pat` occurs in `hay` (occurrences may
overlap; for the patterns counted here at most one can start per
position). -/
def cntOcc (pat : Str) : Str → Nat
  | [] => if pat.isEmpty then 1 else 0
  | c :: t => (if pat.isPrefixOf (c :: t) then 1 else 0) + cntOcc pat t

/-- Does the text contain a comma followed, after optional whitespace, by
a closing brace or bracket? -/
def hasCommaBeforeClose : Str → Bool
  | [] => false
  | c :: rest =>
    (c = ',' &&
      (match rest.dropWhile Py.isSpace with
       | c2 :: _ => c2 = '\x7d' || c2 = ']'
       | [] => false)) ||
    hasCommaBeforeClose rest

/-- Does the text contain a comma followed, after optional whitespace, by
another comma? -/
def hasCommaWsComma : Str → Bool
  | [] => false
  | c :: rest =>
    (c = ',' &&
      (match rest.dropWhile Py.isSpace with
       | c2 :: _ => c2 = ','
       | [] => false)) ||
    hasCommaWsComma rest

/-- Wrap a string in triple-backtick code-fence markers. -/
def wrapFence (s : Str) : Str := sk "```" ++ s ++ sk "```"

/-- Concepts list of a stage-1 result (claim side). -/
def conceptsOfJ (d : Json) : List Json :=
  match jGet d (sk "concepts") with
  | some (.arr l) => l
  | _ => []

/-- Relationships list of a stage-1 result (claim side). -/
def relsOfJ (d : Json) : List Json :=
  match jGet d (sk "relationships") with
  | some (.arr l) => l
  | _ => []

/-- The `id` of a concept, when it is a dict with a string id. -/
def idOfJ (c : Json) : Option Str :=
  match c with
  | .obj fs =>
    match Json.lookupF fs (sk "id") with
    | some (.str s) => some s
    | _ => none
  | _ => none

/-- The `parent` id of a concept, when it is a string. -/
def parentOfJ (c : Json) : Option Str :=
  match c with
  | .obj fs =>
    match Json.lookupF fs (sk "parent") with
    | some (.str s) => some s
    | _ => none
  | _ => none

/-- The numeric `level` of a concept. -/
def levelOfJ (c : Json) : Option Int :=
  match c with
  | .obj fs =>
    match Json.lookupF fs (sk "level") with
    | some (.num n) => some n
    | _ => none
  | _ => none

/-- The `from` field of a relationship, when it is a string. -/
def fromOfJ (r : Json) : Option Str :=
  match r with
  | .obj fs =>
    match Json.lookupF fs (sk "from") with
    | some (.str s) => some s
    | _ => none
  | _ => none

/-- The `to` field of a relationship, when it is a string. -/
def toOfJ (r : Json) : Option Str :=
  match r with
  | .obj fs =>
    match Json.lookupF fs (sk "to") with
    | some (.str s) => some s
    | _ => none
  | _ => none

/-- Is this concept the root: `parent` null and `level` 0? -/
def isRootB (c : Json) : Bool :=
  match c with
  | .obj fs =>
    (match Json.lookupF fs (sk "parent") with
     | some .null => true
     | _ => false) &&
    (match Json.lookupF fs (sk "level") with
     | some (.num 0) => true
     | _ => false)
  | _ => false

/-- The id string `process_<k>`. -/
def processId (k : Nat) : Str := sk "process_" ++ natStr k

/-- The ids of a stage-1 result's concepts. -/
def idsOfJ (d : Json) : List Str := (conceptsOfJ d).filterMap idOfJ

/-- A syntactically valid stage-1 response whose second concept is an
empty dict: it passes the stage-1 validator (which inspects only the
first concept) but makes the stage-2 fallback raise `KeyError`. -/
def c1BadText : Str :=
  sk "\x7b\"main_topic\":\"m\",\"topic_description\":\"d\",\"mindmap_type\":\"f\",\"concepts\":[\x7b\"id\":\"r\",\"title\":\"t\",\"description\":\"d\",\"level\":0,\"what\":\"w\",\"why\":\"y\",\"how\":\"h\",\"examples\":[],\"metrics\":[]\x7d,\x7b\x7d],\"relationships\":[]\x7d"

/-- Oracle answering `c1BadText` on the first call and failing afterwards. -/
def c1Oracle : MG.Oracle := fun k => if k = 0 then .ok c1BadText else .error ()

/-- A stage-2 response that passes the stage-2 validator but carries no
`metadata` key. -/
def c10Text : Str :=
  sk "\x7b\"title\":\"t\",\"description\":\"d\",\"layout_type\":\"h\",\"nodes\":[\x7b\"id\":\"r\",\"title\":\"t\",\"description\":\"d\",\"x\":1,\"y\":2,\"details\":[],\"processes\":[],\"considerations\":[]\x7d],\"edges\":[]\x7d"

/-- A stage-2 response with a deliberately wrong `total_nodes` (99) and
`max_depth` (77): two nodes with levels 2 and 5. -/
def c3Text : Str :=
  sk "\x7b\"title\":\"t\",\"description\":\"d\",\"layout_type\":\"h\",\"metadata\":\x7b\"total_nodes\":99,\"max_depth\":77\x7d,\"nodes\":[\x7b\"id\":\"r\",\"title\":\"t\",\"description\":\"d\",\"x\":1,\"y\":2,\"details\":[],\"processes\":[],\"considerations\":[],\"level\":2\x7d,\x7b\"level\":5\x7d],\"edges\":[]\x7d"

/-- First concept of the stage-1 witness dictionary: all nine required
keys plus an extra one. -/
def c5Concept : List (Str × Json) :=
  [(sk "id", njs "r"), (sk "title", njs "t"), (sk "description", njs "d"),
   (sk "level", Json.num 0), (sk "what", njs "w"), (sk "why", njs "y"),
   (sk "how", njs "h"), (sk "examples", Json.arr []), (sk "metrics", Json.arr []),
   (sk "extra", Json.num 7)]

/-- A stage-1 dictionary with all five top-level keys, a non-empty
concepts list and an extra key. -/
def c5Fields : List (Str × Json) :=
  [(sk "main_topic", njs "m"), (sk "topic_description", njs "d"),
   (sk "mindmap_type", njs "f"), (sk "concepts", Json.arr [Json.obj c5Concept]),
   (sk "relationships", Json.arr []), (sk "extra", Json.null)]

/-- A fallback-safe stage-1 dictionary with one concept and one
relationship, used to witness the stage-2 fallback claims. -/
def c4Fields : List (Str × Json) :=
  [(sk "concepts", Json.arr
     [Json.obj [(sk "id", njs "r"), (sk "title", njs "t"), (sk "level", Json.num 0)]]),
   (sk "relationships", Json.arr
     [Json.obj [(sk "from", njs "r"), (sk "to", njs "r")]])]

/-- A value Python's `max` can compare with numbers: `int` or `bool`. -/
def numLikeB : Json → Bool
  | .num _ => true
  | .bool _ => true
  | _ => false

/-- The declared ConceptGraph invariant, checked computably: exactly one
root concept (`parent` null, `level` 0); every non-root concept's parent
references an existing concept id with the child level one above the
parent's; ids present on every concept and pairwise distinct; every
relationship's `from` and `to` reference existing ids; and the
relationships form the linear chain root → process_1 → process_2 → … in
sequence. -/
def graphInvariantB (d : Json) : Bool :=
  let cs := conceptsOfJ d
  let ids := cs.filterMap idOfJ
  let rels := relsOfJ d
  ((cs.filter isRootB).length == 1) &&
  (cs.all fun cc =>
    isRootB cc ||
    (match parentOfJ cc, levelOfJ cc with
     | some pid, some lc =>
       cs.any fun par =>
         idOfJ par == some pid &&
         (match levelOfJ par with
          | some lp => lc == lp + 1
          | none => false)
     | _, _ => false)) &&
  decide ids.Nodup &&
  (ids.length == cs.length) &&
  (rels.all fun r =>
    match fromOfJ r, toOfJ r with
    | some f, some t => ids.contains f && ids.contains t
    | _, _ => false) &&
  (rels.length + 1 == cs.length) &&
  ((List.range rels.length).all fun i =>
    (fromOfJ (rels.getD i Json.null) == some (if i = 0 then sk "root" else processId i)) &&
    (toOfJ (rels.getD i Json.null) == some (processId (i + 1))))

theorem exBind_ok {α β : Type} (x : PyResult α) (f : α → PyResult β) (b : β) :
    (x >>= f) = .ok b ↔ ∃ a, x = .ok a ∧ f a = .ok b := by
  cases x <;> simp [Bind.bind, Except.bind]

theorem lookupF_setF_self (fs : List (Str × Json)) (k : Str) (v : Json) :
    Json.lookupF (Json.setF fs k v) k = some v := by
  induction fs with
  | nil => simp [Json.setF, Json.lookupF]
  | cons p rest ih =>
    by_cases h : p.1 = k
    · simp [Json.setF, h, Json.lookupF]
    · simp [Json.setF, h, Json.lookupF, ih]

theorem lookupF_setF_ne (fs : List (Str × Json)) (k k' : Str) (v : Json)
    (h : k' ≠ k) :
    Json.lookupF (Json.setF fs k v) k' = Json.lookupF fs k' := by
  have hkk : ¬(k = k') := fun hh => h hh.symm
  induction fs with
  | nil => simp [Json.setF, Json.lookupF, hkk]
  | cons p rest ih =>
    by_cases hp : p.1 = k
    · simp [Json.setF, hp, Json.lookupF, hkk]
    · simp [Json.setF, hp, Json.lookupF, ih]

theorem allIn_obj (ks : List Str) (fs : List (Str × Json)) :
    MG.allIn ks (Json.obj fs) = .ok (ks.all (fun k => Json.hasKeyF fs k)) := by
  induction ks with
  | nil => simp [MG.allIn]
  | cons k rest ih =>
    by_cases h : Json.hasKeyF fs k
    · simp [MG.allIn, Json.pyIn, bind, Except.bind, h, ih]
    · simp [MG.allIn, Json.pyIn, bind, Except.bind, h, pure, Except.pure]

theorem hasKeyF_iff (fs : List (Str × Json)) (k : Str) :
    Json.hasKeyF fs k = true ↔ ∃ v, Json.lookupF fs k = some v := by
  simp [Json.hasKeyF, Option.isSome_iff_exists]

theorem mapM_ok_forall2 {α β : Type} (f : α → PyResult β) :
    ∀ l : List α, (∀ x ∈ l, ∃ y, f x = .ok y) →
      ∃ ys, l.mapM f = .ok ys ∧ List.Forall₂ (fun x y => f x = .ok y) l ys := by
  intro l
  induction l with
  | nil => intro _; exact ⟨[], rfl, .nil⟩
  | cons x rest ih =>
    intro h
    obtain ⟨y, hy⟩ := h x (by simp)
    obtain ⟨ys, hys, hf⟩ := ih (fun a ha => h a (by simp [ha]))
    refine ⟨y :: ys, ?_, .cons hy hf⟩
    rw [List.mapM_cons]
    exact (exBind_ok _ _ _).mpr ⟨y, hy, (exBind_ok _ _ _).mpr ⟨ys, hys, rfl⟩⟩

theorem mapM_ok_elim {α β : Type} (f : α → PyResult β) :
    ∀ (l : List α) (ys : List β), l.mapM f = .ok ys →
      List.Forall₂ (fun x y => f x = .ok y) l ys := by
  intro l
  induction l with
  | nil =>
    intro ys h
    simp only [List.mapM_nil, pure, Except.pure] at h
    cases h; exact .nil
  | cons x rest ih =>
    intro ys h
    rw [List.mapM_cons] at h
    obtain ⟨y, hy, h2⟩ := (exBind_ok _ _ _).mp h
    obtain ⟨ys2, hys2, h3⟩ := (exBind_ok _ _ _).mp h2
    simp only [pure, Except.pure] at h3
    cases h3
    exact .cons hy (ih ys2 hys2)

theorem pyMaxFold_num (xs : List Int) :
    ∀ m : Int, Json.pyMaxFold (.num m) (xs.map Json.num) = .ok (.num (xs.foldl max m)) := by
  induction xs with
  | nil => intro m; simp [Json.pyMaxFold]
  | cons x rest ih =>
    intro m
    simp only [List.map_cons, Json.pyMaxFold, Json.pyLt, bind, Except.bind,
      List.foldl_cons]
    by_cases h : m < x
    · rw [max_eq_right h.le]
      simpa [h] using ih x
    · rw [max_eq_left (not_lt.mp h)]
      simpa [h] using ih m

theorem pyMax0_num (ls : List Int) :
    Json.pyMax0 (ls.map Json.num) = .ok (.num (maxLevelSpec ls)) := by
  cases ls with
  | nil => simp [Json.pyMax0, maxLevelSpec]
  | cons x xs => simp [Json.pyMax0, maxLevelSpec, pyMaxFold_num]

theorem levels_getDefault (nodes : List Json) :
    ∀ ls : List Int, levelsOfNodes nodes = some ls →
      nodes.mapM (fun nd => nd.getDefault (sk "level") (Json.num 0)) =
        .ok (ls.map Json.num) := by
  induction nodes with
  | nil =>
    intro ls h
    simp only [levelsOfNodes, Option.some.injEq] at h
    subst h
    rfl
  | cons nd rest ih =>
    intro ls h
    simp only [levelsOfNodes] at h
    cases ha : levelOfNode nd with
    | none => rw [ha] at h; simp at h
    | some a =>
      cases has : levelsOfNodes rest with
      | none => rw [ha, has] at h; simp at h
      | some as =>
        rw [ha, has] at h
        simp only [Option.some.injEq] at h
        subst h
        have hrest := ih as has
        have hget : Json.getDefault nd (sk "level") (Json.num 0) = .ok (Json.num a) := by
          cases nd with
          | obj fs =>
            cases hl : Json.lookupF fs (sk "level") with
            | none =>
              simp only [levelOfNode, hl] at ha
              cases ha
              simp [Json.getDefault, hl]
            | some v =>
              cases v <;> simp only [levelOfNode, hl] at ha <;> try cases ha
              simp [Json.getDefault, hl]
          | null => simp [levelOfNode] at ha
          | bool b => simp [levelOfNode] at ha
          | num n => simp [levelOfNode] at ha
          | str s => simp [levelOfNode] at ha
          | arr l => simp [levelOfNode] at ha
        rw [List.mapM_cons]
        exact (exBind_ok _ _ _).mpr ⟨Json.num a, hget,
          (exBind_ok _ _ _).mpr ⟨as.map Json.num, hrest, rfl⟩⟩

/-- C5: the stage-1 validator returns false for any dictionary missing one
of the keys `main_topic`, `topic_description`, `mindmap_type`, `concepts`,
`relationships`, or whose `concepts` value is not a non-empty list; and
when `concepts` is a non-empty list whose first element is a dictionary,
it returns true exactly when that first concept carries all of `id`,
`title`, `description`, `level`, `what`, `why`, `how`, `examples`,
`metrics` — regardless of extra keys elsewhere. -/
theorem C5_stage1_validator (fields : List (Str × Json)) :
    ((∃ k ∈ MG.requiredKeys1, Json.hasKeyF fields k = false) →
      MG.validateDetailedParsedData (Json.obj fields) = .ok false)
  ∧ (∀ cv, (∀ k ∈ MG.requiredKeys1, Json.hasKeyF fields k = true) →
      Json.lookupF fields (sk "concepts") = some cv →
      (∀ c cs, cv ≠ Json.arr (c :: cs)) →
      MG.validateDetailedParsedData (Json.obj fields) = .ok false)
  ∧ (∀ cf rest, (∀ k ∈ MG.requiredKeys1, Json.hasKeyF fields k = true) →
      Json.lookupF fields (sk "concepts") = some (Json.arr (Json.obj cf :: rest)) →
      (MG.validateDetailedParsedData (Json.obj fields) = .ok true ↔
        ∀ k ∈ MG.conceptKeys1, Json.hasKeyF cf k = true)) := by
  refine ⟨?_, ?_, ?_⟩
  · rintro ⟨k, hk, hfk⟩
    have hall : MG.requiredKeys1.all (fun k => Json.hasKeyF fields k) = false := by
      rw [List.all_eq_false]
      exact ⟨k, hk, by simp [hfk]⟩
    simp [MG.validateDetailedParsedData, allIn_obj, hall, bind, Except.bind, pure, Except.pure]
  · intro cv hall hcv hnot
    have halltrue : MG.requiredKeys1.all (fun k => Json.hasKeyF fields k) = true :=
      List.all_eq_true.mpr (fun k hk => by simp [hall k hk])
    cases cv with
    | arr l =>
      cases l with
      | nil =>
        simp [MG.validateDetailedParsedData, allIn_obj, halltrue, Json.getItem, hcv,
          bind, Except.bind, pure, Except.pure]
      | cons c cs => exact absurd rfl (hnot c cs)
    | null =>
      simp [MG.validateDetailedParsedData, allIn_obj, halltrue, Json.getItem, hcv,
        bind, Except.bind, pure, Except.pure]
    | bool b =>
      simp [MG.validateDetailedParsedData, allIn_obj, halltrue, Json.getItem, hcv,
        bind, Except.bind, pure, Except.pure]
    | num n =>
      simp [MG.validateDetailedParsedData, allIn_obj, halltrue, Json.getItem, hcv,
        bind, Except.bind, pure, Except.pure]
    | str s =>
      simp [MG.validateDetailedParsedData, allIn_obj, halltrue, Json.getItem, hcv,
        bind, Except.bind, pure, Except.pure]
    | obj fs =>
      simp [MG.validateDetailedParsedData, allIn_obj, halltrue, Json.getItem, hcv,
        bind, Except.bind, pure, Except.pure]
  · intro cf rest hall hcv
    have halltrue : MG.requiredKeys1.all (fun k => Json.hasKeyF fields k) = true :=
      List.all_eq_true.mpr (fun k hk => by simp [hall k hk])
    have hv : MG.validateDetailedParsedData (Json.obj fields) =
        .ok (MG.conceptKeys1.all (fun k => Json.hasKeyF cf k)) := by
      cases hc : MG.conceptKeys1.all (fun k => Json.hasKeyF cf k) <;>
        simp [MG.validateDetailedParsedData, allIn_obj, halltrue, Json.getItem, hcv, hc,
          bind, Except.bind, pure, Except.pure]
    rw [hv]
    simp [List.all_eq_true]

/-- C5 witness: a concrete dictionary with all required keys and extra
keys is accepted. -/
theorem C5_stage1_validator_witness :
    MG.validateDetailedParsedData (Json.obj c5Fields) = .ok true :=
  ((C5_stage1_validator c5Fields).2.2 c5Concept [] (by decide) rfl).mpr (by decide)

/-- C6 counterexample: the prompt "data architecture" contains
"architecture", yet the classifier returns `machine_learning` (the
machine-learning keyword set, checked first, contains the substring
"data"), not `software_architecture`. -/
theorem C6_domain_classifier_counterexample :
    Py.containsSub (sk "architecture") (Py.lower (sk "data architecture")) = true ∧
    MG.classifyDomain (sk "data architecture") = sk "machine_learning" ∧
    MG.classifyDomain (sk "data architecture") ≠ sk "software_architecture" :=
  ⟨by decide, by decide, by decide⟩

/-- C6 (amended): a prompt containing "machine learning" maps to
`machine_learning`; a prompt containing "architecture" and none of the
machine-learning keywords maps to `software_architecture`; a prompt
containing no keyword of the four keyword sets maps to `general`. -/
theorem C6_domain_classifier :
    (∀ p : Str, Py.containsSub (sk "machine learning") (Py.lower p) = true →
      MG.classifyDomain p = sk "machine_learning")
  ∧ (∀ p : Str, Py.containsSub (sk "architecture") (Py.lower p) = true →
      (∀ w ∈ MG.mlWords, Py.containsSub w (Py.lower p) = false) →
      MG.classifyDomain p = sk "software_architecture")
  ∧ (∀ p : Str,
      (∀ w ∈ MG.mlWords ++ MG.saWords ++ MG.bizWords ++ MG.eduWords,
        Py.containsSub w (Py.lower p) = false) →
      MG.classifyDomain p = sk "general") := by
  refine ⟨?_, ?_, ?_⟩
  · intro p h
    have hany : MG.mlWords.any (fun w => Py.containsSub w (Py.lower p)) = true :=
      List.any_eq_true.mpr ⟨sk "machine learning", by decide, h⟩
    simp [MG.classifyDomain, hany]
  · intro p h hml
    have hmlany : MG.mlWords.any (fun w => Py.containsSub w (Py.lower p)) = false := by
      rw [List.any_eq_false]
      exact fun w hw => by simp [hml w hw]
    have hsa : MG.saWords.any (fun w => Py.containsSub w (Py.lower p)) = true :=
      List.any_eq_true.mpr ⟨sk "architecture", by decide, h⟩
    simp [MG.classifyDomain, hmlany, hsa]
  · intro p h
    have hfalse : ∀ l : List Str, l ⊆ MG.mlWords ++ MG.saWords ++ MG.bizWords ++ MG.eduWords →
        l.any (fun w => Py.containsSub w (Py.lower p)) = false := by
      intro l hl
      rw [List.any_eq_false]
      exact fun w hw => by simp [h w (hl hw)]
    simp [MG.classifyDomain,
      hfalse MG.mlWords (by intro x hx; simp [hx]),
      hfalse MG.saWords (by intro x hx; simp [hx]),
      hfalse MG.bizWords (by intro x hx; simp [hx]),
      hfalse MG.eduWords (by intro x hx; simp [hx])]

/-- C6 witness: the three amended clauses at concrete prompts. -/
theorem C6_domain_classifier_witness :
    MG.classifyDomain (sk "machine learning flow") = sk "machine_learning" ∧
    MG.classifyDomain (sk "pure architecture") = sk "software_architecture" ∧
    MG.classifyDomain (sk "zzz") = sk "general" :=
  ⟨C6_domain_classifier.1 _ (by decide),
   C6_domain_classifier.2.1 _ (by decide) (by decide),
   C6_domain_classifier.2.2 _ (by decide)⟩

set_option maxRecDepth 200000

/-- C10: `c10Text` parses to a dictionary that passes the stage-2
validator yet carries no `metadata` key; the post-validation
normalization then raises `KeyError`, which the blanket handler absorbs:
the attempt fails, and three such responses exhaust the retries and route
stage 2 to its fallback, so passing validation does not guarantee the
attempt succeeds. -/
theorem C10_validation_does_not_imply_success :
    ∃ d, jsonLoads (MG.cleanJsonResponse (Py.strip c10Text)) = some d ∧
      MG.validateDetailedStructuredData d = .ok true ∧
      MG.finalizeStructured d = .error .keyError ∧
      MG.structureAttempt (.ok c10Text) = none ∧
      MG.structureKnowledgeDetailed (fun _ => .ok c10Text) 0 (Json.obj []) =
        (MG.createDetailedFallbackStructure (Json.obj []), 3) :=
  ⟨_, rfl, rfl, rfl, rfl, rfl⟩

/-- C9: if the stage-4 model call raises, stage 4 returns its input
byte-for-byte, and that string is the final output of
`generate_mindmap`. -/
theorem C9_stage4_passthrough (oracle : MG.Oracle) (p ts : Str)
    (parsed : Json) (k1 : Nat) (st : Json) (k2 : Nat) (xml : Str) (k3 : Nat)
    (h1 : MG.parseConceptsDetailed oracle p = (parsed, k1))
    (h2 : MG.structureKnowledgeDetailed oracle k1 parsed = (.ok st, k2))
    (h3 : MG.generateDetailedXml oracle k2 st p ts = (.ok xml, k3))
    (h4 : oracle k3 = .error ()) :
    MG.validateXml oracle k3 xml = (xml, k3 + 1) ∧
    MG.generateMindmap oracle p ts = .ok xml := by
  have hv : MG.validateXml oracle k3 xml = (xml, k3 + 1) := by
    simp [MG.validateXml, h4]
  refine ⟨hv, ?_⟩
  simp only [MG.generateMindmap, h1, h2, h3, hv]

/-- C9 witness: with the service down for every call, the final output is
exactly the stage-3 result passed through stage 4. -/
theorem C9_stage4_passthrough_witness :
    ∃ xml : Str, MG.validateXml failOracle 7 xml = (xml, 8) ∧
      MG.generateMindmap failOracle (sk "p") (sk "TS") = .ok xml := by
  obtain ⟨h1, h2⟩ :=
    C9_stage4_passthrough failOracle (sk "p") (sk "TS") _ 3 _ 6 _ 7 rfl rfl rfl rfl
  exact ⟨_, h1, h2⟩

theorem vstruct_ok_shape (d : Json)
    (h : MG.validateDetailedStructuredData d = .ok true) :
    ∃ dfs n0 ns, d = Json.obj dfs ∧
      Json.lookupF dfs (sk "nodes") = some (Json.arr (n0 :: ns)) := by
  cases d with
  | obj dfs =>
    refine ⟨dfs, ?_⟩
    by_cases hall : MG.requiredKeys2.all (fun k => Json.hasKeyF dfs k) = true
    · have hnk : Json.hasKeyF dfs (sk "nodes") = true := by
        have := List.all_eq_true.mp hall (sk "nodes") (by decide)
        simpa using this
      obtain ⟨v, hv⟩ := (hasKeyF_iff _ _).mp hnk
      cases v with
      | arr l =>
        cases l with
        | nil =>
          simp [MG.validateDetailedStructuredData, allIn_obj, hall, Json.getItem, hv,
            bind, Except.bind, pure, Except.pure] at h
        | cons n0 ns => exact ⟨n0, ns, rfl, hv⟩
      | null =>
        simp [MG.validateDetailedStructuredData, allIn_obj, hall, Json.getItem, hv,
          bind, Except.bind, pure, Except.pure] at h
      | bool b =>
        simp [MG.validateDetailedStructuredData, allIn_obj, hall, Json.getItem, hv,
          bind, Except.bind, pure, Except.pure] at h
      | num n =>
        simp [MG.validateDetailedStructuredData, allIn_obj, hall, Json.getItem, hv,
          bind, Except.bind, pure, Except.pure] at h
      | str s =>
        simp [MG.validateDetailedStructuredData, allIn_obj, hall, Json.getItem, hv,
          bind, Except.bind, pure, Except.pure] at h
      | obj fs =>
        simp [MG.validateDetailedStructuredData, allIn_obj, hall, Json.getItem, hv,
          bind, Except.bind, pure, Except.pure] at h
    · have hf : MG.requiredKeys2.all (fun k => Json.hasKeyF dfs k) = false :=
        eq_false_of_ne_true hall
      simp [MG.validateDetailedStructuredData, allIn_obj, hf,
        bind, Except.bind, pure, Except.pure] at h
  | null => simp [MG.validateDetailedStructuredData, MG.allIn, MG.requiredKeys2,
      Json.pyIn, bind, Except.bind] at h
  | bool b => simp [MG.validateDetailedStructuredData, MG.allIn, MG.requiredKeys2,
      Json.pyIn, bind, Except.bind] at h
  | num n => simp [MG.validateDetailedStructuredData, MG.allIn, MG.requiredKeys2,
      Json.pyIn, bind, Except.bind] at h
  | str s =>
    by_cases hall : MG.allIn MG.requiredKeys2 (Json.str s) = .ok true
    · simp [MG.validateDetailedStructuredData, hall, Json.getItem,
        bind, Except.bind, pure, Except.pure] at h
    · cases hres : MG.allIn MG.requiredKeys2 (Json.str s) with
      | error e =>
        simp [MG.validateDetailedStructuredData, hres, bind, Except.bind] at h
      | ok b =>
        cases b with
        | true => exact absurd hres hall
        | false =>
          simp [MG.validateDetailedStructuredData, hres, bind, Except.bind,
            pure, Except.pure] at h
  | arr l =>
    by_cases hall : MG.allIn MG.requiredKeys2 (Json.arr l) = .ok true
    · simp [MG.validateDetailedStructuredData, hall, Json.getItem,
        bind, Except.bind, pure, Except.pure] at h
    · cases hres : MG.allIn MG.requiredKeys2 (Json.arr l) with
      | error e =>
        simp [MG.validateDetailedStructuredData, hres, bind, Except.bind] at h
      | ok b =>
        cases b with
        | true => exact absurd hres hall
        | false =>
          simp [MG.validateDetailedStructuredData, hres, bind, Except.bind,
            pure, Except.pure] at h

/-- C3: every layout returned by a successful stage-2 attempt, and every
layout the stage-2 fallback produces, carries `metadata.total_nodes`
equal to the length of its nodes list and `metadata.max_depth` equal to
the maximum level value over the nodes (0 for an empty list), regardless
of any `total_nodes` or `max_depth` values present upstream. -/
theorem C3_metadata_recomputed :
    (∀ (resp : Except Unit Str) (st : Json), MG.structureAttempt resp = some st →
      ∃ mdf nodes, jGet st (sk "metadata") = some (Json.obj mdf) ∧
        jGet st (sk "nodes") = some (Json.arr nodes) ∧
        Json.lookupF mdf (sk "total_nodes") = some (Json.num nodes.length) ∧
        (∀ ls, levelsOfNodes nodes = some ls →
          Json.lookupF mdf (sk "max_depth") = some (Json.num (maxLevelSpec ls))))
  ∧ (∀ (d st : Json), MG.createDetailedFallbackStructure d = .ok st →
      ∃ mdf nodes, jGet st (sk "metadata") = some (Json.obj mdf) ∧
        jGet st (sk "nodes") = some (Json.arr nodes) ∧
        Json.lookupF mdf (sk "total_nodes") = some (Json.num nodes.length) ∧
        (∀ ls, levelsOfNodes nodes = some ls →
          Json.lookupF mdf (sk "max_depth") = some (Json.num (maxLevelSpec ls)))) := by
  constructor
  · intro resp st h
    unfold MG.structureAttempt at h
    split at h
    · simp at h
    · rename_i text
      split at h
      · simp at h
      · rename_i d hjl
        split at h
        · rename_i hv
          split at h
          · rename_i st2 hf
            simp only [Option.some.injEq] at h
            subst h
            obtain ⟨dfs, n0, ns, hd, hnodes⟩ := vstruct_ok_shape d hv
            subst hd
            unfold MG.finalizeStructured at hf
            obtain ⟨nodes1, hn1, hf⟩ := (exBind_ok _ _ _).mp hf
            simp only [Json.getDefault, hnodes, Except.ok.injEq] at hn1
            obtain ⟨n, hn, hf⟩ := (exBind_ok _ _ _).mp hf
            rw [← hn1] at hn
            simp only [Json.pyLen, Except.ok.injEq] at hn
            obtain ⟨md0, hmd0, hf⟩ := (exBind_ok _ _ _).mp hf
            cases hml : Json.lookupF dfs (sk "metadata") with
            | none => simp [Json.getItem, hml] at hmd0
            | some mdv =>
              simp only [Json.getItem, hml, Except.ok.injEq] at hmd0
              subst hmd0
              obtain ⟨md1, hmd1, hf⟩ := (exBind_ok _ _ _).mp hf
              cases mdv with
              | obj mdf0 =>
                simp only [Json.setItem, Except.ok.injEq] at hmd1
                subst hmd1
                obtain ⟨nodes2, hn2, hf⟩ := (exBind_ok _ _ _).mp hf
                have hlook2 : Json.lookupF
                    (Json.setF dfs (sk "metadata")
                      (Json.obj (Json.setF mdf0 (sk "total_nodes") (Json.num n))))
                    (sk "nodes") = some (Json.arr (n0 :: ns)) := by
                  rw [lookupF_setF_ne _ _ _ _ (by decide)]
                  exact hnodes
                simp only [Json.objSet, Json.getDefault, hlook2, Except.ok.injEq] at hn2
                obtain ⟨elems, helems, hf⟩ := (exBind_ok _ _ _).mp hf
                rw [← hn2] at helems
                simp only [Json.iterElems, Except.ok.injEq] at helems
                obtain ⟨lv, hlv, hf⟩ := (exBind_ok _ _ _).mp hf
                rw [← helems] at hlv
                obtain ⟨mx, hmx, hf⟩ := (exBind_ok _ _ _).mp hf
                obtain ⟨md2, hmd2, hf⟩ := (exBind_ok _ _ _).mp hf
                simp only [Json.objSet, Json.getItem, lookupF_setF_self,
                  Except.ok.injEq] at hmd2
                subst hmd2
                obtain ⟨md3, hmd3, hf⟩ := (exBind_ok _ _ _).mp hf
                simp only [Json.setItem, Except.ok.injEq] at hmd3
                subst hmd3
                simp only [pure, Except.pure, Json.objSet, Except.ok.injEq] at hf
                subst hf
                refine ⟨Json.setF (Json.setF mdf0 (sk "total_nodes") (Json.num n))
                  (sk "max_depth") mx, n0 :: ns, ?_, ?_, ?_, ?_⟩
                · simp [jGet, lookupF_setF_self]
                · simp only [jGet]
                  rw [lookupF_setF_ne _ _ _ _ (by decide),
                    lookupF_setF_ne _ _ _ _ (by decide)]
                  exact hnodes
                · rw [lookupF_setF_ne _ _ _ _ (by decide), lookupF_setF_self, ← hn]
                · intro ls hls
                  have hmap := levels_getDefault (n0 :: ns) ls hls
                  rw [hmap] at hlv
                  simp only [Except.ok.injEq] at hlv
                  subst hlv
                  rw [pyMax0_num] at hmx
                  simp only [Except.ok.injEq] at hmx
                  subst hmx
                  rw [lookupF_setF_self]
              | null => simp [Json.setItem] at hmd1
              | bool b2 => simp [Json.setItem] at hmd1
              | num n2 => simp [Json.setItem] at hmd1
              | str s2 => simp [Json.setItem] at hmd1
              | arr l2 => simp [Json.setItem] at hmd1
          · simp at h
        · simp at h
  · intro d st h
    unfold MG.createDetailedFallbackStructure at h
    obtain ⟨title, h1, h⟩ := (exBind_ok _ _ _).mp h
    obtain ⟨description, h2, h⟩ := (exBind_ok _ _ _).mp h
    obtain ⟨concepts, h3, h⟩ := (exBind_ok _ _ _).mp h
    obtain ⟨domain, h4, h⟩ := (exBind_ok _ _ _).mp h
    obtain ⟨workflow, h5, h⟩ := (exBind_ok _ _ _).mp h
    obtain ⟨nodes, h6, h⟩ := (exBind_ok _ _ _).mp h
    obtain ⟨rels, h7, h⟩ := (exBind_ok _ _ _).mp h
    obtain ⟨relElems, h8, h⟩ := (exBind_ok _ _ _).mp h
    obtain ⟨edges, h9, h⟩ := (exBind_ok _ _ _).mp h
    obtain ⟨complexity, h10, h⟩ := (exBind_ok _ _ _).mp h
    obtain ⟨lv, hlv, h⟩ := (exBind_ok _ _ _).mp h
    obtain ⟨mx, hmx, h⟩ := (exBind_ok _ _ _).mp h
    simp only [pure, Except.pure, Except.ok.injEq] at h
    subst h
    refine ⟨_, nodes, rfl, rfl, rfl, ?_⟩
    intro ls hls
    have hmap := levels_getDefault nodes ls hls
    rw [hmap] at hlv
    simp only [Except.ok.injEq] at hlv
    subst hlv
    rw [pyMax0_num] at hmx
    simp only [Except.ok.injEq] at hmx
    subst hmx
    rfl

/-- C3 witness: a response claiming `total_nodes` 99 and `max_depth` 77
is corrected to the true count 2 and true maximum level 5. -/
theorem C3_metadata_recomputed_witness :
    ∃ mdf nodes,
      jGet ((MG.structureAttempt (Except.ok c3Text)).getD Json.null) (sk "metadata") =
        some (Json.obj mdf) ∧
      jGet ((MG.structureAttempt (Except.ok c3Text)).getD Json.null) (sk "nodes") =
        some (Json.arr nodes) ∧
      Json.lookupF mdf (sk "total_nodes") = some (Json.num nodes.length) ∧
      nodes.length = 2 ∧
      Json.lookupF mdf (sk "max_depth") = some (Json.num 5) := by
  obtain ⟨mdf, nodes, h1, h2, h3, h4⟩ :=
    C3_metadata_recomputed.1 (Except.ok c3Text)
      ((MG.structureAttempt (Except.ok c3Text)).getD Json.null) rfl
  have h2' : jGet ((MG.structureAttempt (Except.ok c3Text)).getD Json.null) (sk "nodes") =
      some (Json.arr (nodesOfJ ((MG.structureAttempt (Except.ok c3Text)).getD Json.null))) := rfl
  have hn : nodes = nodesOfJ ((MG.structureAttempt (Except.ok c3Text)).getD Json.null) := by
    have hh := h2.symm.trans h2'
    simpa using hh
  refine ⟨mdf, nodes, h1, h2, h3, ?_, ?_⟩
  · rw [hn]; rfl
  · exact h4 [2, 5] (by rw [hn]; rfl)

theorem bind_ok_eq {α β : Type} (a : α) (f : α → PyResult β) :
    ((Except.ok a : PyResult α) >>= f) = f a := rfl

theorem getDefault_obj (fs : List (Str × Json)) (k : Str) (dv : Json) :
    Json.getDefault (Json.obj fs) k dv = .ok ((Json.lookupF fs k).getD dv) := by
  cases h : Json.lookupF fs k <;> simp [Json.getDefault, h]

theorem buildNode_ok (i : Nat) (c : Json) (h : conceptSafeB c = true) :
    ∃ nd, MG.buildNode i c = .ok nd ∧ nodeShapeB nd = true := by
  cases c with
  | obj cfs =>
    simp only [conceptSafeB, Bool.and_eq_true] at h
    obtain ⟨⟨⟨hid, htitle⟩, hlevel⟩, hnt⟩ := h
    obtain ⟨idv, hidv⟩ := Option.isSome_iff_exists.mp hid
    -- fix the shape of the stored level
    have hlv : ∃ level, (Json.lookupF cfs (sk "level")).getD (Json.num 0) = level ∧
        numLikeB level = true := ⟨_, rfl, by
      cases hl : Json.lookupF cfs (sk "level") with
      | none => simp [numLikeB]
      | some v => rw [hl] at hlevel; cases v <;> simp_all [numLikeB]⟩
    obtain ⟨level, hlevelv, hnl⟩ := hlv
    -- position computation succeeds
    have hpos : ∃ posv : Int × Int × Int × Int, MG.nodePos i level = .ok posv := by
      by_cases he : Json.eqNum level 0 = true
      · exact ⟨_, by rw [MG.nodePos, if_pos he]; rfl⟩
      · have hint : ∃ lv, pyToInt level = .ok lv := by
          cases level <;> simp_all [numLikeB, pyToInt]
        obtain ⟨lv, hlvv⟩ := hint
        exact ⟨_, by rw [MG.nodePos, if_neg he, hlvv, bind_ok_eq]; rfl⟩
    obtain ⟨posv, hposv⟩ := hpos
    -- title slices
    have htt : ∃ tv ts, Json.lookupF cfs (sk "title") = some tv ∧
        Json.slice30 tv = .ok ts := by
      cases ht : Json.lookupF cfs (sk "title") with
      | none => rw [ht] at htitle; simp at htitle
      | some v =>
        rw [ht] at htitle
        cases v <;> simp at htitle <;> exact ⟨_, _, rfl, rfl⟩
    obtain ⟨tv, ts, htv, hts⟩ := htt
    -- color lookup succeeds
    have hcol : ∃ col, MG.colorGet ((Json.lookupF cfs (sk "node_type")).getD (njs "process")) =
        .ok col := by
      cases hn : Json.lookupF cfs (sk "node_type") with
      | none => exact ⟨_, rfl⟩
      | some v =>
        rw [hn] at hnt
        cases v <;> simp at hnt <;> exact ⟨_, rfl⟩
    obtain ⟨col, hcolv⟩ := hcol
    have hok : ∃ nd, MG.buildNode i (Json.obj cfs) = .ok nd := by
      simp only [MG.buildNode, getDefault_obj, bind_ok_eq, hlevelv, hposv,
        Json.getItem, hidv, htv, hts, hcolv]
      exact ⟨_, rfl⟩
    obtain ⟨nd, hnd⟩ := hok
    refine ⟨nd, hnd, ?_⟩
    simp only [MG.buildNode, getDefault_obj, bind_ok_eq, hlevelv, hposv,
      Json.getItem, hidv, htv, hts, hcolv, pure, Except.pure, Except.ok.injEq] at hnd
    subst hnd
    cases level with
    | num n => rfl
    | bool b => rfl
    | null => simp [numLikeB] at hnl
    | str s => simp [numLikeB] at hnl
    | arr l2 => simp [numLikeB] at hnl
    | obj fs2 => simp [numLikeB] at hnl
  | null => simp [conceptSafeB] at h
  | bool b => simp [conceptSafeB] at h
  | num n => simp [conceptSafeB] at h
  | str s => simp [conceptSafeB] at h
  | arr l => simp [conceptSafeB] at h

theorem buildEdge_ok (i : Nat) (r : Json) (h : relSafeB r = true) :
    ∃ ed, MG.buildEdge i r = .ok ed := by
  cases r with
  | obj rfs =>
    simp only [relSafeB, Bool.and_eq_true] at h
    obtain ⟨hfrom, hto⟩ := h
    obtain ⟨fv, hfv⟩ := Option.isSome_iff_exists.mp hfrom
    obtain ⟨tv, htv⟩ := Option.isSome_iff_exists.mp hto
    have hok : ∃ ed, MG.buildEdge i (Json.obj rfs) = .ok ed := by
      simp only [MG.buildEdge, Json.getItem, hfv, htv, bind_ok_eq, getDefault_obj]
      exact ⟨_, rfl⟩
    exact hok
  | null => simp [relSafeB] at h
  | bool b => simp [relSafeB] at h
  | num n => simp [relSafeB] at h
  | str s => simp [relSafeB] at h
  | arr l => simp [relSafeB] at h

theorem forall2_mem_right {α β : Type} {r : α → β → Prop} :
    ∀ {l : List α} {ys : List β}, List.Forall₂ r l ys → ∀ y ∈ ys, ∃ x ∈ l, r x y := by
  intro l ys h
  induction h with
  | nil => intro y hy; simp at hy
  | cons hr _ ih =>
    intro y hy
    rcases List.mem_cons.mp hy with h1 | h2
    · exact ⟨_, by simp, h1 ▸ hr⟩
    · obtain ⟨x, hx, hrx⟩ := ih y h2
      exact ⟨x, by simp [hx], hrx⟩

theorem mem_enumFrom_snd {α : Type} :
    ∀ (l : List α) (n : Nat) (q : Nat × α), q ∈ l.enumFrom n → q.2 ∈ l := by
  intro l
  induction l with
  | nil => intro n q hq; simp [List.enumFrom] at hq
  | cons x rest ih =>
    intro n q hq
    simp only [List.enumFrom, List.mem_cons] at hq
    rcases hq with h1 | h2
    · simp [h1]
    · exact List.mem_cons_of_mem _ (ih (n + 1) q h2)

theorem mem_enum_snd {α : Type} (l : List α) (q : Nat × α) (hq : q ∈ l.enum) :
    q.2 ∈ l := mem_enumFrom_snd l 0 q hq

theorem pyMaxFold_numlike (xs : List Json) :
    ∀ m : Json, numLikeB m = true → (∀ x ∈ xs, numLikeB x = true) →
      ∃ r, Json.pyMaxFold m xs = .ok r := by
  induction xs with
  | nil => intro m _ _; exact ⟨m, rfl⟩
  | cons x rest ih =>
    intro m hm hxs
    have hx : numLikeB x = true := hxs x (by simp)
    have hlt : ∃ b, Json.pyLt m x = .ok b := by
      cases m with
      | num a =>
        cases x with
        | num c => exact ⟨_, rfl⟩
        | bool c => exact ⟨_, rfl⟩
        | null => simp [numLikeB] at hx
        | str s => simp [numLikeB] at hx
        | arr l2 => simp [numLikeB] at hx
        | obj f2 => simp [numLikeB] at hx
      | bool a =>
        cases x with
        | num c => exact ⟨_, rfl⟩
        | bool c => exact ⟨_, rfl⟩
        | null => simp [numLikeB] at hx
        | str s => simp [numLikeB] at hx
        | arr l2 => simp [numLikeB] at hx
        | obj f2 => simp [numLikeB] at hx
      | null => simp [numLikeB] at hm
      | str s => simp [numLikeB] at hm
      | arr l2 => simp [numLikeB] at hm
      | obj f2 => simp [numLikeB] at hm
    obtain ⟨b, hb⟩ := hlt
    have hkeep : numLikeB (if b then x else m) = true := by
      cases b <;> simp [hx, hm]
    obtain ⟨r, hr⟩ := ih (if b then x else m) hkeep (fun y hy => hxs y (by simp [hy]))
    exact ⟨r, by simp only [Json.pyMaxFold, hb, bind_ok_eq]; exact hr⟩

theorem pyMax0_numlike (l : List Json) (h : ∀ x ∈ l, numLikeB x = true) :
    ∃ r, Json.pyMax0 l = .ok r := by
  cases l with
  | nil => exact ⟨Json.num 0, rfl⟩
  | cons x rest =>
    exact pyMaxFold_numlike rest x (h x (by simp)) (fun y hy => h y (by simp [hy]))

theorem levels_of_shaped (nds : List Json) (h : ∀ nd ∈ nds, nodeShapeB nd = true) :
    ∃ lv, nds.mapM (fun nd => nd.getDefault (sk "level") (Json.num 0)) = .ok lv ∧
      ∀ x ∈ lv, numLikeB x = true := by
  have hstep : ∀ nd ∈ nds, ∃ y, Json.getDefault nd (sk "level") (Json.num 0) = .ok y ∧
      numLikeB y = true := by
    intro nd hnd
    have hs := h nd hnd
    cases nd with
    | obj nfs =>
      simp only [nodeShapeB, Bool.and_eq_true] at hs
      obtain ⟨_, hlev⟩ := hs
      refine ⟨(Json.lookupF nfs (sk "level")).getD (Json.num 0), getDefault_obj _ _ _, ?_⟩
      cases hl : Json.lookupF nfs (sk "level") with
      | none => simp [numLikeB]
      | some v => rw [hl] at hlev; cases v <;> simp_all [numLikeB]
    | null => simp [nodeShapeB] at hs
    | bool b => simp [nodeShapeB] at hs
    | num n => simp [nodeShapeB] at hs
    | str s => simp [nodeShapeB] at hs
    | arr l2 => simp [nodeShapeB] at hs
  obtain ⟨lv, hlv, hf2⟩ := mapM_ok_forall2 _ nds (fun nd hnd => by
    obtain ⟨y, hy, _⟩ := hstep nd hnd; exact ⟨y, hy⟩)
  refine ⟨lv, hlv, ?_⟩
  intro x hx
  obtain ⟨nd, hnd, hr⟩ := forall2_mem_right hf2 x hx
  obtain ⟨y, hy, hnl⟩ := hstep nd hnd
  rw [hy] at hr
  cases hr
  exact hnl

theorem fallback_structure_core (d : Json) (h : fallbackSafeB d = true) :
    ∃ (cl : List Json) (workflow : Json) (nds : List Json) (stf : List (Str × Json)),
      Json.getDefault d (sk "concepts") (Json.arr []) = .ok (Json.arr cl) ∧
      Json.getDefault d (sk "workflow_type") (njs "sequential") = .ok workflow ∧
      MG.createDetailedFallbackStructure d = .ok (Json.obj stf) ∧
      Json.lookupF stf (sk "nodes") = some (Json.arr nds) ∧
      MG.requiredKeys2.all (Json.hasKeyF stf) = true ∧
      (∀ nd ∈ nds, nodeShapeB nd = true) ∧
      ((Json.eqStr workflow (sk "flowchart") || Json.eqStr workflow (sk "sequential")) = true →
        nds.length = cl.length) := by
  cases d with
  | obj fs =>
    simp only [fallbackSafeB, Bool.and_eq_true] at h
    obtain ⟨hconc, hrel⟩ := h
    have hcl : ∃ cl : List Json,
        (Json.lookupF fs (sk "concepts")).getD (Json.arr []) = Json.arr cl ∧
        cl.all conceptSafeB = true := by
      cases hc : Json.lookupF fs (sk "concepts") with
      | none => exact ⟨[], rfl, rfl⟩
      | some v =>
        rw [hc] at hconc
        cases v with
        | arr l => exact ⟨l, rfl, hconc⟩
        | null => simp at hconc
        | bool b => simp at hconc
        | num n => simp at hconc
        | str s => simp at hconc
        | obj o => simp at hconc
    obtain ⟨cl, hcleq, hclall⟩ := hcl
    have hrl : ∃ rl : List Json,
        (Json.lookupF fs (sk "relationships")).getD (Json.arr []) = Json.arr rl ∧
        rl.all relSafeB = true := by
      cases hc : Json.lookupF fs (sk "relationships") with
      | none => exact ⟨[], rfl, rfl⟩
      | some v =>
        rw [hc] at hrel
        cases v with
        | arr l => exact ⟨l, rfl, hrel⟩
        | null => simp at hrel
        | bool b => simp at hrel
        | num n => simp at hrel
        | str s => simp at hrel
        | obj o => simp at hrel
    obtain ⟨rl, hrleq, hrlall⟩ := hrl
    obtain ⟨workflow, hwfeq⟩ :
        ∃ w, (Json.lookupF fs (sk "workflow_type")).getD (njs "sequential") = w := ⟨_, rfl⟩
    have hnodes : ∃ nds : List Json, MG.buildNodesIf workflow (Json.arr cl) = .ok nds ∧
        (∀ nd ∈ nds, nodeShapeB nd = true) ∧
        ((Json.eqStr workflow (sk "flowchart") || Json.eqStr workflow (sk "sequential")) = true →
          nds.length = cl.length) := by
      by_cases hcond :
          (Json.eqStr workflow (sk "flowchart") || Json.eqStr workflow (sk "sequential")) = true
      · have hsafe : ∀ q ∈ cl.enum, ∃ y, MG.buildNode q.1 q.2 = .ok y := by
          intro q hq
          obtain ⟨nd, hnd, _⟩ := buildNode_ok q.1 q.2
            (List.all_eq_true.mp hclall q.2 (mem_enum_snd cl q hq))
          exact ⟨nd, hnd⟩
        obtain ⟨nds, hnds, hf2⟩ := mapM_ok_forall2 _ cl.enum hsafe
        refine ⟨nds, ?_, ?_, fun _ => ?_⟩
        · rw [MG.buildNodesIf, if_pos hcond]
          simp only [Json.iterElems, bind_ok_eq]
          exact hnds
        · intro nd hnd
          obtain ⟨q, hq, hr⟩ := forall2_mem_right hf2 nd hnd
          obtain ⟨nd2, hnd2, hshape⟩ := buildNode_ok q.1 q.2
            (List.all_eq_true.mp hclall q.2 (mem_enum_snd cl q hq))
          rw [hnd2] at hr
          cases hr
          exact hshape
        · rw [← hf2.length_eq, List.enum_length]
      · refine ⟨[], ?_, by simp, fun hc => absurd hc hcond⟩
        rw [MG.buildNodesIf, if_neg hcond]
        rfl
    obtain ⟨nds, hnds, hshapes, hlen⟩ := hnodes
    have hedges : ∃ eds : List Json,
        rl.enum.mapM (fun q => MG.buildEdge q.1 q.2) = .ok eds := by
      obtain ⟨eds, heds, _⟩ := mapM_ok_forall2 _ rl.enum (by
        intro q hq
        exact buildEdge_ok q.1 q.2 (List.all_eq_true.mp hrlall q.2 (mem_enum_snd rl q hq)))
      exact ⟨eds, heds⟩
    obtain ⟨eds, heds⟩ := hedges
    obtain ⟨lv, hlv, hnuml⟩ := levels_of_shaped nds hshapes
    obtain ⟨mx, hmx⟩ := pyMax0_numlike lv hnuml
    have hok : ∃ st, MG.createDetailedFallbackStructure (Json.obj fs) = .ok st := by
      simp only [MG.createDetailedFallbackStructure, getDefault_obj, bind_ok_eq,
        hcleq, hrleq, hwfeq, hnds, Json.iterElems, heds, hlv, hmx]
      exact ⟨_, rfl⟩
    obtain ⟨st, hst⟩ := hok
    have hst2 := hst
    simp only [MG.createDetailedFallbackStructure, getDefault_obj, bind_ok_eq,
      hcleq, hrleq, hwfeq, hnds, Json.iterElems, heds, hlv, hmx,
      pure, Except.pure, Except.ok.injEq] at hst2
    subst hst2
    refine ⟨cl, workflow, nds, _,
      by rw [getDefault_obj, hcleq],
      by rw [getDefault_obj, hwfeq],
      hst, rfl, rfl, hshapes, hlen⟩
  | null => simp [fallbackSafeB] at h
  | bool b => simp [fallbackSafeB] at h
  | num n => simp [fallbackSafeB] at h
  | str s => simp [fallbackSafeB] at h
  | arr l => simp [fallbackSafeB] at h

/-- C4 counterexample: on the empty dictionary the stage-2 fallback
returns a layout with an empty nodes list, which the stage-2 validator
rejects — so the stage-2 fallback output does not pass its validator for
every parsed-data dictionary. -/
theorem C4_fallbacks_counterexample :
    ∃ st, MG.createDetailedFallbackStructure (Json.obj []) = .ok st ∧
      MG.validateDetailedStructuredData st = .ok false :=
  ⟨_, rfl, rfl⟩

/-- C4 (amended): the stage-1 fallback output always passes the stage-1
validator; the stage-2 fallback output passes the stage-2 validator
(including a non-empty nodes list) whenever the parsed data is a
fallback-readable dictionary with a non-empty concepts list and a
workflow_type (default sequential) of flowchart or sequential. -/
theorem C4_fallbacks_pass_validators :
    (∀ p : Str, MG.validateDetailedParsedData (MG.createIntelligentFallback p) = .ok true)
  ∧ (∀ (fs : List (Str × Json)) (c : Json) (cs : List Json),
      fallbackSafeB (Json.obj fs) = true →
      Json.lookupF fs (sk "concepts") = some (Json.arr (c :: cs)) →
      workflowOkB fs = true →
      ∃ st, MG.createDetailedFallbackStructure (Json.obj fs) = .ok st ∧
        MG.validateDetailedStructuredData st = .ok true) := by
  constructor
  · intro p
    rfl
  · intro fs c cs hsafe hconc hwf
    obtain ⟨cl, workflow, nds, stf, hcleq, hwfeq, hcreate, hnodeslk, hkeys, hshapes, hlen⟩ :=
      fallback_structure_core (Json.obj fs) hsafe
    have hcl2 : cl = c :: cs := by
      rw [getDefault_obj] at hcleq
      simp only [hconc, Option.getD_some, Except.ok.injEq, Json.arr.injEq] at hcleq
      exact hcleq.symm
    have hwcond :
        (Json.eqStr workflow (sk "flowchart") || Json.eqStr workflow (sk "sequential")) = true := by
      rw [getDefault_obj] at hwfeq
      simp only [Except.ok.injEq] at hwfeq
      unfold workflowOkB at hwf
      cases hw : Json.lookupF fs (sk "workflow_type") with
      | none =>
        rw [hw] at hwfeq
        simp only [Option.getD_none] at hwfeq
        subst hwfeq
        decide
      | some w =>
        rw [hw] at hwf hwfeq
        simp only [Option.getD_some] at hwfeq
        subst hwfeq
        exact hwf
    have hlen2 := hlen hwcond
    have hne : nds ≠ [] := by
      rw [hcl2] at hlen2
      intro hnil
      rw [hnil] at hlen2
      simp at hlen2
    cases hndseq : nds with
    | nil => exact absurd hndseq hne
    | cons nd0 rest =>
      have hshape0 : nodeShapeB nd0 = true := hshapes nd0 (by rw [hndseq]; simp)
      refine ⟨Json.obj stf, hcreate, ?_⟩
      rw [hndseq] at hnodeslk
      cases nd0 with
      | obj nfs =>
        simp only [nodeShapeB, Bool.and_eq_true] at hshape0
        obtain ⟨hnk, _⟩ := hshape0
        simp [MG.validateDetailedStructuredData, allIn_obj, hkeys, Json.getItem,
          hnodeslk, hnk, bind, Except.bind, pure, Except.pure]
      | null => simp [nodeShapeB] at hshape0
      | bool b => simp [nodeShapeB] at hshape0
      | num n => simp [nodeShapeB] at hshape0
      | str s => simp [nodeShapeB] at hshape0
      | arr l2 => simp [nodeShapeB] at hshape0

/-- C4 witness: both amended clauses at concrete inputs. -/
theorem C4_fallbacks_pass_validators_witness :
    MG.validateDetailedParsedData (MG.createIntelligentFallback (sk "x")) = .ok true ∧
    ∃ st, MG.createDetailedFallbackStructure (Json.obj c4Fields) = .ok st ∧
      MG.validateDetailedStructuredData st = .ok true :=
  ⟨C4_fallbacks_pass_validators.1 (sk "x"),
   C4_fallbacks_pass_validators.2 c4Fields _ [] (by decide) rfl (by decide)⟩

theorem mem_enumFrom_fst {α : Type} :
    ∀ (l : List α) (n : Nat) (q : Nat × α), q ∈ l.enumFrom n → q.1 < n + l.length := by
  intro l
  induction l with
  | nil => intro n q hq; simp [List.enumFrom] at hq
  | cons x rest ih =>
    intro n q hq
    simp only [List.enumFrom, List.mem_cons] at hq
    rcases hq with h1 | h2
    · simp [h1]
    · have := ih (n + 1) q h2
      simp only [List.length_cons]
      omega

theorem mem_enum_fst {α : Type} (l : List α) (q : Nat × α) (hq : q ∈ l.enum) :
    q.1 < l.length := by
  have := mem_enumFrom_fst l 0 q hq
  omega

theorem flowOf_bounds (p : Str) :
    (MG.processFlowOf p).length < 9 ∧ MG.processFlowOf p ≠ [] := by
  simp only [MG.processFlowOf]
  by_cases h1 : MG.classifyDomain p = sk "machine_learning"
  · rw [if_pos h1]; exact ⟨by decide, by decide⟩
  · rw [if_neg h1]
    by_cases h2 : MG.classifyDomain p = sk "software_architecture"
    · rw [if_pos h2]; exact ⟨by decide, by decide⟩
    · rw [if_neg h2]
      by_cases h3 : MG.classifyDomain p = sk "business_strategy"
      · rw [if_pos h3]; exact ⟨by decide, by decide⟩
      · rw [if_neg h3]
        by_cases h4 : (MG.keyWordsOf p).length ≥ 6
        · rw [if_pos h4]
          constructor
          · rw [List.length_take]; omega
          · intro hnil
            have hlen := congrArg List.length hnil
            rw [List.length_take] at hlen
            simp only [List.length_nil] at hlen
            omega
        · rw [if_neg h4]; exact ⟨by decide, by decide⟩

theorem idOfJ_root (mt ds dom : Str) :
    idOfJ (MG.rootConcept mt ds dom) = some (sk "root") := rfl

theorem idOfJ_proc (n : Nat) (mt dom : Str) (i : Nat) (p : Str) :
    idOfJ (MG.procConcept n mt dom i p) = some (processId (i + 1)) := rfl

theorem isRootB_root (mt ds dom : Str) : isRootB (MG.rootConcept mt ds dom) = true := rfl

theorem isRootB_proc (n : Nat) (mt dom : Str) (i : Nat) (p : Str) :
    isRootB (MG.procConcept n mt dom i p) = false := rfl

theorem fromOf_stageRel (flow : List Str) (i : Nat) (p : Str) :
    fromOfJ (MG.stageRel flow i p) = some (if i = 0 then sk "root" else processId i) := by
  by_cases hi : i = 0
  · subst hi; rfl
  · rw [MG.stageRel]
    simp only [if_neg hi]
    rfl

theorem toOf_stageRel (flow : List Str) (i : Nat) (p : Str) :
    toOfJ (MG.stageRel flow i p) = some (processId (i + 1)) := rfl

theorem ids_form (flow : List Str) (mt ds dom : Str) :
    (MG.rootConcept mt ds dom ::
      flow.enum.map (fun q => MG.procConcept flow.length mt dom q.1 q.2)).filterMap idOfJ =
    sk "root" :: (List.range flow.length).map (fun i => processId (i + 1)) := by
  simp only [List.filterMap_cons, idOfJ_root]
  rw [List.filterMap_map]
  have hcomp : (idOfJ ∘ fun q : Nat × Str => MG.procConcept flow.length mt dom q.1 q.2) =
      (some ∘ fun q : Nat × Str => processId (q.1 + 1)) := funext fun q => rfl
  rw [hcomp, List.filterMap_eq_map]
  have hsplit : (fun q : Nat × Str => processId (q.1 + 1)) =
      (fun i => processId (i + 1)) ∘ Prod.fst := rfl
  rw [hsplit, ← List.map_map, List.enum_map_fst]

theorem ids_nodup_small :
    ∀ n, n < 9 → (sk "root" :: (List.range n).map (fun i => processId (i + 1))).Nodup := by
  decide

theorem graph_inv_generic (d : Json) (flow : List Str) (mt ds dom : Str)
    (hlt : flow.length < 9)
    (hcs : conceptsOfJ d = MG.rootConcept mt ds dom ::
      flow.enum.map (fun q => MG.procConcept flow.length mt dom q.1 q.2))
    (hrels : relsOfJ d = flow.enum.map (fun q => MG.stageRel flow q.1 q.2)) :
    graphInvariantB d = true := by
  unfold graphInvariantB
  rw [hcs, hrels]
  simp only [Bool.and_eq_true]
  refine ⟨⟨⟨⟨⟨⟨?_, ?_⟩, ?_⟩, ?_⟩, ?_⟩, ?_⟩, ?_⟩
  · -- exactly one root
    have hfilter : (MG.rootConcept mt ds dom ::
        flow.enum.map (fun q => MG.procConcept flow.length mt dom q.1 q.2)).filter isRootB =
        [MG.rootConcept mt ds dom] := by
      rw [List.filter_cons_of_pos (isRootB_root mt ds dom), List.filter_map]
      have h0 : (isRootB ∘ fun q : Nat × Str => MG.procConcept flow.length mt dom q.1 q.2) =
          fun _ => false := funext fun q => rfl
      rw [h0]
      simp
    rw [hfilter]
    rfl
  · -- parent/level structure
    rw [List.all_eq_true]
    intro cc hcc
    rcases List.mem_cons.mp hcc with h1 | h2
    · subst h1; rfl
    · obtain ⟨q, _, hqe⟩ := List.mem_map.mp h2
      subst hqe
      rfl
  · -- ids unique
    rw [ids_form, decide_eq_true_eq]
    exact ids_nodup_small _ hlt
  · -- every concept has an id
    rw [ids_form]
    simp [List.enum_length]
  · -- relationship endpoints reference existing ids
    rw [List.all_eq_true]
    intro r hr
    obtain ⟨q, hq, hqe⟩ := List.mem_map.mp hr
    subst hqe
    have hqlt : q.1 < flow.length := mem_enum_fst flow q hq
    simp only [fromOf_stageRel, toOf_stageRel]
    have hto : processId (q.1 + 1) ∈
        (MG.rootConcept mt ds dom ::
          flow.enum.map (fun q => MG.procConcept flow.length mt dom q.1 q.2)).filterMap idOfJ := by
      rw [ids_form]
      exact List.mem_cons_of_mem _
        (List.mem_map.mpr ⟨q.1, List.mem_range.mpr hqlt, rfl⟩)
    by_cases h0 : q.1 = 0
    · simp only [h0, if_pos rfl]
      rw [Bool.and_eq_true]
      refine ⟨?_, ?_⟩
      · rw [ids_form]
        rfl
      · rw [← h0]
        exact List.elem_eq_true_of_mem hto
    · rw [if_neg h0]
      rw [Bool.and_eq_true]
      refine ⟨?_, ?_⟩
      · have hfrom : processId q.1 ∈
            (MG.rootConcept mt ds dom ::
              flow.enum.map (fun q => MG.procConcept flow.length mt dom q.1 q.2)).filterMap idOfJ := by
          rw [ids_form]
          refine List.mem_cons_of_mem _
            (List.mem_map.mpr ⟨q.1 - 1, List.mem_range.mpr (by omega), ?_⟩)
          have : q.1 - 1 + 1 = q.1 := by omega
          rw [this]
        exact List.elem_eq_true_of_mem hfrom
      · exact List.elem_eq_true_of_mem hto
  · -- one relationship fewer than concepts
    simp [List.enum_length, Nat.add_comm]
  · -- linear chain in sequence
    rw [List.all_eq_true]
    intro i hi
    have hi' : i < flow.length := by
      simpa [List.enum_length] using List.mem_range.mp hi
    have hlen2 : i < (flow.enum.map (fun q => MG.stageRel flow q.1 q.2)).length := by
      simpa [List.enum_length] using hi'
    rw [List.getD_eq_getElem _ _ hlen2, List.getElem_map, List.getElem_enum]
    simp [fromOf_stageRel, toOf_stageRel]

/-- C8: for every prompt, the ConceptGraph built by the stage-1 fallback
satisfies the declared graph invariant: exactly one root concept (parent
null, level 0); every other concept's parent references an existing
concept id with level parent + 1; all ids present and distinct; every
relationship's from/to reference existing ids; and the relationships form
the linear chain connecting the stage nodes in sequence. -/
theorem C8_fallback_graph_invariant (p : Str) :
    graphInvariantB (MG.createIntelligentFallback p) = true := by
  obtain ⟨hlt, hne⟩ := flowOf_bounds p
  exact graph_inv_generic _ (MG.processFlowOf p) (MG.mainTopicOf p)
    (MG.domainSpaced (MG.classifyDomain p)) (MG.classifyDomain p) hlt rfl rfl

theorem getItem_ok_obj (d : Json) (k : Str) (v : Json) (h : Json.getItem d k = .ok v) :
    ∃ fs, d = Json.obj fs := by
  cases d <;> first | exact ⟨_, rfl⟩ | simp [Json.getItem] at h

theorem finalize_ok_obj (d d2 : Json) (h : MG.finalizeStructured d = .ok d2) :
    ∃ sf, d2 = Json.obj sf := by
  unfold MG.finalizeStructured at h
  obtain ⟨nodes1, h1, h⟩ := (exBind_ok _ _ _).mp h
  obtain ⟨n, h2, h⟩ := (exBind_ok _ _ _).mp h
  obtain ⟨md, h3, h⟩ := (exBind_ok _ _ _).mp h
  obtain ⟨md1, h4, h⟩ := (exBind_ok _ _ _).mp h
  obtain ⟨fs, rfl⟩ := getItem_ok_obj d _ md h3
  obtain ⟨nodes2, h5, h⟩ := (exBind_ok _ _ _).mp h
  obtain ⟨elems, h6, h⟩ := (exBind_ok _ _ _).mp h
  obtain ⟨levels, h7, h⟩ := (exBind_ok _ _ _).mp h
  obtain ⟨mx, h8, h⟩ := (exBind_ok _ _ _).mp h
  obtain ⟨md2, h9, h⟩ := (exBind_ok _ _ _).mp h
  obtain ⟨md3, h10, h⟩ := (exBind_ok _ _ _).mp h
  cases md1 with
  | obj m1f =>
    simp only [pure, Except.pure, Json.objSet, Except.ok.injEq] at h
    exact ⟨_, h.symm⟩
  | null => simp only [pure, Except.pure, Json.objSet, Except.ok.injEq] at h; exact ⟨_, h.symm⟩
  | bool b => simp only [pure, Except.pure, Json.objSet, Except.ok.injEq] at h; exact ⟨_, h.symm⟩
  | num n2 => simp only [pure, Except.pure, Json.objSet, Except.ok.injEq] at h; exact ⟨_, h.symm⟩
  | str s2 => simp only [pure, Except.pure, Json.objSet, Except.ok.injEq] at h; exact ⟨_, h.symm⟩
  | arr l2 => simp only [pure, Except.pure, Json.objSet, Except.ok.injEq] at h; exact ⟨_, h.symm⟩

theorem structureAttempt_obj (resp : Except Unit Str) (st : Json)
    (h : MG.structureAttempt resp = some st) : ∃ sf, st = Json.obj sf := by
  unfold MG.structureAttempt at h
  split at h
  · simp at h
  · split at h
    · simp at h
    · rename_i d hjl
      split at h
      · split at h
        · rename_i st2 hf
          simp only [Option.some.injEq] at h
          subst h
          exact finalize_ok_obj d st2 hf
        · simp at h
      · simp at h

theorem runAttempts_some (attempt : Except Unit Str → Option Json) (oracle : MG.Oracle)
    (n : Nat) :
    ∀ (k : Nat) (d : Json) (k2 : Nat), MG.runAttempts attempt oracle k n = some (d, k2) →
    ∃ resp, attempt resp = some d := by
  induction n with
  | zero => intro k d k2 h; simp [MG.runAttempts] at h
  | succ m ih =>
    intro k d k2 h
    unfold MG.runAttempts at h
    split at h
    · rename_i d' hd'
      simp only [Option.some.injEq, Prod.mk.injEq] at h
      exact ⟨oracle k, by rw [hd', h.1]⟩
    · exact ih _ _ _ h

theorem vparsed_ok_obj (d : Json) (h : MG.validateDetailedParsedData d = .ok true) :
    ∃ fs, d = Json.obj fs := by
  unfold MG.validateDetailedParsedData at h
  obtain ⟨b, hb, h⟩ := (exBind_ok _ _ _).mp h
  cases b with
  | true =>
    rw [if_neg (show ¬((!true) = true) by decide)] at h
    obtain ⟨c, hc, h2⟩ := (exBind_ok _ _ _).mp h
    exact getItem_ok_obj d _ c hc
  | false =>
    rw [if_pos (show (!false) = true by decide)] at h
    simp [pure, Except.pure] at h

theorem parseAttempt_obj (resp : Except Unit Str) (d : Json)
    (h : MG.parseAttempt resp = some d) : ∃ fs, d = Json.obj fs := by
  unfold MG.parseAttempt at h
  split at h
  · simp at h
  · split at h
    · simp at h
    · rename_i d0 hjl
      split at h
      · rename_i hv
        simp only [Option.some.injEq] at h
        subst h
        exact vparsed_ok_obj d0 hv
      · simp at h

theorem fallbackXmlText_ne_nil (a b c d : Str) : MG.fallbackXmlText a b c d ≠ [] := by
  obtain ⟨ch, cs, hA⟩ : ∃ ch cs, MG.xmlSegA = ch :: cs := ⟨_, _, rfl⟩
  simp [MG.fallbackXmlText, hA]

theorem createDetailedFallbackXml_ok (fs : List (Str × Json)) (p ts : Str) :
    MG.createDetailedFallbackXml (Json.obj fs) p ts =
      .ok (MG.fallbackXmlText
        (pyStrJ ((Json.lookupF fs (sk "title")).getD (njs "Mindmap")))
        (pyStrJ ((Json.lookupF fs (sk "description")).getD (njs "Comprehensive mindmap")))
        ts p) := by
  simp only [MG.createDetailedFallbackXml, getDefault_obj, bind_ok_eq]
  rfl

theorem structureKnowledge_obj (oracle : MG.Oracle) (k : Nat) (pfs : List (Str × Json))
    (hsafe : fallbackSafeB (Json.obj pfs) = true) :
    ∃ (sf : List (Str × Json)) (k2 : Nat),
      MG.structureKnowledgeDetailed oracle k (Json.obj pfs) = (.ok (Json.obj sf), k2) := by
  unfold MG.structureKnowledgeDetailed
  simp only [getDefault_obj, bind_ok_eq, pure, Except.pure]
  cases hr : MG.runAttempts MG.structureAttempt oracle k 3 with
  | some dk =>
    obtain ⟨d, k2⟩ := dk
    obtain ⟨resp, hresp⟩ := runAttempts_some MG.structureAttempt oracle 3 k d k2 hr
    obtain ⟨sf, rfl⟩ := structureAttempt_obj resp d hresp
    exact ⟨sf, k2, rfl⟩
  | none =>
    obtain ⟨cl, workflow, nds, stf, _, _, hcreate, _, _, _, _⟩ :=
      fallback_structure_core (Json.obj pfs) hsafe
    exact ⟨stf, k + 3, by rw [hcreate]⟩

/-- C1 counterexample: an exception escapes `generate_mindmap`.  The
first stage-1 response is valid JSON that passes the stage-1 validator
although its second concept is the empty dict; every later call fails,
so the stage-2 fallback runs and its bare `concept["id"]` lookup raises
a KeyError outside any handler, which propagates to the caller. -/
theorem C1_no_escape_counterexample :
    MG.generateMindmap c1Oracle (sk "p") (sk "TS") = .error .keyError := by
  rfl

/-- C1 (amended): `generate_mindmap` returns a non-empty string and no
exception escapes, provided the stage-1 result is one the stage-2
fallback can read without raising (all concepts carry `id` and a
sliceable `title`, all relationships carry `from` and `to`), and every
successful model response strips to non-empty text.  Without the first
proviso a KeyError escapes, as the counterexample shows. -/
theorem C1_no_escape (oracle : MG.Oracle) (prompt ts : Str)
    (hsafe : fallbackSafeB (MG.parseConceptsDetailed oracle prompt).1 = true)
    (hresp : ∀ k t, oracle k = .ok t → MG.stripXmlFence t ≠ []) :
    ∃ s, MG.generateMindmap oracle prompt ts = .ok s ∧ s ≠ [] := by
  obtain ⟨pfs, hp⟩ : ∃ pfs,
      (MG.parseConceptsDetailed oracle prompt).1 = Json.obj pfs := by
    cases hd : (MG.parseConceptsDetailed oracle prompt).1 with
    | obj pfs => exact ⟨pfs, rfl⟩
    | null => rw [hd] at hsafe; simp [fallbackSafeB] at hsafe
    | bool b => rw [hd] at hsafe; simp [fallbackSafeB] at hsafe
    | num n => rw [hd] at hsafe; simp [fallbackSafeB] at hsafe
    | str s => rw [hd] at hsafe; simp [fallbackSafeB] at hsafe
    | arr l => rw [hd] at hsafe; simp [fallbackSafeB] at hsafe
  rw [hp] at hsafe
  obtain ⟨sf, k2, hst2⟩ :=
    structureKnowledge_obj oracle (MG.parseConceptsDetailed oracle prompt).2 pfs hsafe
  rw [← hp] at hst2
  obtain ⟨xml, k3, hst3, hxml⟩ : ∃ xml k3,
      MG.generateDetailedXml oracle k2 (Json.obj sf) prompt ts = (.ok xml, k3) ∧
      xml ≠ [] := by
    cases ho : oracle k2 with
    | ok t =>
      exact ⟨MG.stripXmlFence t, k2 + 1, by simp [MG.generateDetailedXml, ho],
        hresp k2 t ho⟩
    | error e =>
      refine ⟨MG.fallbackXmlText
          (pyStrJ ((Json.lookupF sf (sk "title")).getD (njs "Mindmap")))
          (pyStrJ ((Json.lookupF sf (sk "description")).getD (njs "Comprehensive mindmap")))
          ts prompt, k2 + 1, ?_, fallbackXmlText_ne_nil _ _ _ _⟩
      simp only [MG.generateDetailedXml, ho]
      rw [createDetailedFallbackXml_ok]
  have hst4 : (MG.validateXml oracle k3 xml).1 ≠ [] := by
    unfold MG.validateXml
    cases ho : oracle k3 with
    | ok t => exact hresp k3 t ho
    | error e => exact hxml
  refine ⟨(MG.validateXml oracle k3 xml).1, ?_, hst4⟩
  simp only [MG.generateMindmap, hst2, hst3]

/-- C1 witness: with the always-failing oracle every proviso holds and a
non-empty fallback document is returned. -/
theorem C1_no_escape_witness :
    ∃ s, MG.generateMindmap failOracle (sk "x") (sk "T") = .ok s ∧ s ≠ [] :=
  C1_no_escape failOracle (sk "x") (sk "T") rfl (fun _ _ h => nomatch h)

theorem space_ne (c d : Char) (h : Py.isSpace c = true) (hd : Py.isSpace d = false) :
    c ≠ d := fun he => by rw [he] at h; rw [h] at hd; exact Bool.noConfusion hd

theorem hcbc_cons (c : Char) (t : Str) (hc : c ≠ ',') :
    hasCommaBeforeClose (c :: t) = hasCommaBeforeClose t := by
  simp [hasCommaBeforeClose, hc]

theorem hcwc_cons (c : Char) (t : Str) (hc : c ≠ ',') :
    hasCommaWsComma (c :: t) = hasCommaWsComma t := by
  simp [hasCommaWsComma, hc]

theorem dropWhile_space_append (ws x : Str) (h : ∀ c ∈ ws, Py.isSpace c = true) :
    (ws ++ x).dropWhile Py.isSpace = x.dropWhile Py.isSpace := by
  induction ws with
  | nil => rfl
  | cons w rest ih =>
    rw [List.cons_append, List.dropWhile_cons_of_pos (h w (List.mem_cons_self w rest))]
    exact ih (fun c hc => h c (List.mem_cons_of_mem w hc))

theorem hcbc_spaces_append (ws x : Str) (h : ∀ c ∈ ws, Py.isSpace c = true) :
    hasCommaBeforeClose (ws ++ x) = hasCommaBeforeClose x := by
  induction ws with
  | nil => rfl
  | cons w rest ih =>
    rw [List.cons_append,
      hcbc_cons w _ (space_ne w ',' (h w (List.mem_cons_self w rest)) (by decide))]
    exact ih (fun c hc => h c (List.mem_cons_of_mem w hc))

theorem hcwc_tail_false (c : Char) (t : Str) (h : hasCommaWsComma (c :: t) = false) :
    hasCommaWsComma t = false := by
  simp only [hasCommaWsComma, Bool.or_eq_false_iff] at h
  exact h.2

theorem hcwc_suffix_false (a b : Str) (h : hasCommaWsComma (a ++ b) = false) :
    hasCommaWsComma b = false := by
  induction a with
  | nil => exact h
  | cons c t ih => exact ih (hcwc_tail_false c _ h)

theorem hcbc_nil_B (ws : Str) (hws : ∀ c ∈ ws, Py.isSpace c = true) :
    hasCommaBeforeClose (',' :: ws) = false := by
  have hdw : ws.dropWhile Py.isSpace = [] := List.dropWhile_eq_nil_iff.mpr hws
  have h2 : hasCommaBeforeClose ws = false := by
    have := hcbc_spaces_append ws [] hws
    simpa using this
  simp [hasCommaBeforeClose, hdw, h2]

theorem rtc_core : ∀ (n : Nat) (u : Str), u.length ≤ n →
    (hasCommaWsComma u = false → hasCommaBeforeClose (MG.rtcGo none u) = false) ∧
    (∀ ws, (∀ c ∈ ws, Py.isSpace c = true) →
      hasCommaWsComma (',' :: (ws ++ u)) = false →
      hasCommaBeforeClose (MG.rtcGo (some ws) u) = false) := by
  intro n
  induction n with
  | zero =>
    intro u hu
    have hnil : u = [] := List.eq_nil_of_length_eq_zero (Nat.le_zero.mp hu)
    subst hnil
    exact ⟨fun _ => rfl, fun ws hws _ => hcbc_nil_B ws hws⟩
  | succ m ih =>
    intro u hu
    constructor
    · intro hP
      cases u with
      | nil => rfl
      | cons c rest =>
        have hle : rest.length ≤ m := by
          simp only [List.length_cons] at hu; omega
        by_cases hc : c = ','
        · subst hc
          have heq : MG.rtcGo none (',' :: rest) = MG.rtcGo (some []) rest := by
            simp [MG.rtcGo]
          rw [heq]
          refine (ih rest hle).2 [] (fun d hd => absurd hd (List.not_mem_nil d)) ?_
          simpa using hP
        · have heq : MG.rtcGo none (c :: rest) = c :: MG.rtcGo none rest := by
            simp [MG.rtcGo, hc]
          rw [heq, hcbc_cons c _ hc]
          exact (ih rest hle).1 ((hcwc_cons c rest hc).symm.trans hP)
    · intro ws hws hP
      cases u with
      | nil => exact hcbc_nil_B ws hws
      | cons c rest =>
        have hle : rest.length ≤ m := by
          simp only [List.length_cons] at hu; omega
        by_cases hsp : Py.isSpace c = true
        · have heq : MG.rtcGo (some ws) (c :: rest) = MG.rtcGo (some (ws ++ [c])) rest := by
            simp [MG.rtcGo, hsp]
          rw [heq]
          refine (ih rest hle).2 (ws ++ [c]) ?_ ?_
          · intro d hd
            rcases List.mem_append.mp hd with h1 | h2
            · exact hws d h1
            · rw [List.mem_singleton.mp h2]; exact hsp
          · have he : ws ++ [c] ++ rest = ws ++ (c :: rest) := by simp
            rw [he]; exact hP
        · have hsp' : Py.isSpace c = false := eq_false_of_ne_true hsp
          by_cases hcl : c = '\x7d' ∨ c = ']'
          · have heq : MG.rtcGo (some ws) (c :: rest) = ws ++ c :: MG.rtcGo none rest := by
              simp [MG.rtcGo, hsp', hcl]
            rw [heq]
            have hcne : c ≠ ',' := by
              rcases hcl with h1 | h1 <;> (subst h1; decide)
            rw [hcbc_spaces_append ws _ hws, hcbc_cons c _ hcne]
            refine (ih rest hle).1 ?_
            have he : ',' :: (ws ++ (c :: rest)) = ((',' :: ws) ++ [c]) ++ rest := by simp
            exact hcwc_suffix_false _ _ (by rw [← he]; exact hP)
          · by_cases hcm : c = ','
            · exfalso
              subst hcm
              have htrue : hasCommaWsComma (',' :: (ws ++ ',' :: rest)) = true := by
                simp only [hasCommaWsComma]
                rw [dropWhile_space_append ws _ hws,
                  List.dropWhile_cons_of_neg (by decide)]
                simp
              rw [hP] at htrue
              exact Bool.noConfusion htrue
            · have heq : MG.rtcGo (some ws) (c :: rest) =
                  (',' :: ws) ++ (c :: MG.rtcGo none rest) := by
                simp [MG.rtcGo, hsp', hcl, hcm]
              rw [heq]
              have hA : hasCommaBeforeClose (MG.rtcGo none rest) = false := by
                refine (ih rest hle).1 ?_
                have he : ',' :: (ws ++ (c :: rest)) = ((',' :: ws) ++ [c]) ++ rest := by
                  simp
                exact hcwc_suffix_false _ _ (by rw [← he]; exact hP)
              have hne1 : c ≠ '\x7d' := fun h1 => hcl (Or.inl h1)
              have hne2 : c ≠ ']' := fun h1 => hcl (Or.inr h1)
              rw [List.cons_append]
              simp only [hasCommaBeforeClose]
              rw [dropWhile_space_append ws _ hws, List.dropWhile_cons_of_neg hsp]
              rw [hcbc_spaces_append ws _ hws, hcbc_cons c _ hcm, hA]
              simp [hne1, hne2]

theorem dropWhile_append_nonempty (t y : Str) (c : Char) (r : Str)
    (h : t.dropWhile Py.isSpace = c :: r) :
    (t ++ y).dropWhile Py.isSpace = c :: (r ++ y) := by
  induction t with
  | nil => exact absurd h (by simp)
  | cons a t' ih =>
    by_cases ha : Py.isSpace a = true
    · rw [List.dropWhile_cons_of_pos ha] at h
      rw [List.cons_append, List.dropWhile_cons_of_pos ha]
      exact ih h
    · rw [List.dropWhile_cons_of_neg ha] at h
      rw [List.cons_append, List.dropWhile_cons_of_neg ha]
      cases h
      rfl

theorem hcwc_append_right (a b : Str) (h : hasCommaWsComma a = true) :
    hasCommaWsComma (a ++ b) = true := by
  induction a with
  | nil => exact absurd h (by decide)
  | cons c t ih =>
    simp only [List.cons_append, hasCommaWsComma, Bool.or_eq_true] at h ⊢
    rcases h with h1 | h2
    · left
      rw [Bool.and_eq_true] at h1 ⊢
      refine ⟨h1.1, ?_⟩
      cases hdw : t.dropWhile Py.isSpace with
      | nil => rw [hdw] at h1; exact absurd h1.2 (by simp)
      | cons c2 r =>
        rw [hdw] at h1
        rw [show List.append t b = t ++ b from rfl,
          dropWhile_append_nonempty t b c2 r hdw]
        exact h1.2
    · right; exact ih h2

theorem hcbc_tail_false (c : Char) (t : Str) (h : hasCommaBeforeClose (c :: t) = false) :
    hasCommaBeforeClose t = false := by
  simp only [hasCommaBeforeClose, Bool.or_eq_false_iff] at h
  exact h.2

theorem hcbc_suffix_false (a b : Str) (h : hasCommaBeforeClose (a ++ b) = false) :
    hasCommaBeforeClose b = false := by
  induction a with
  | nil => exact h
  | cons c t ih => exact ih (hcbc_tail_false c _ h)

theorem hcbc_append_right (a b : Str) (h : hasCommaBeforeClose a = true) :
    hasCommaBeforeClose (a ++ b) = true := by
  induction a with
  | nil => exact absurd h (by decide)
  | cons c t ih =>
    simp only [List.cons_append, hasCommaBeforeClose, Bool.or_eq_true] at h ⊢
    rcases h with h1 | h2
    · left
      rw [Bool.and_eq_true] at h1 ⊢
      refine ⟨h1.1, ?_⟩
      cases hdw : t.dropWhile Py.isSpace with
      | nil => rw [hdw] at h1; exact absurd h1.2 (by simp)
      | cons c2 r =>
        rw [hdw] at h1
        rw [show List.append t b = t ++ b from rfl,
          dropWhile_append_nonempty t b c2 r hdw]
        exact h1.2
    · right; exact ih h2

theorem hcwc_infix_false (u v : Str) (hiv : u <:+: v) (h : hasCommaWsComma v = false) :
    hasCommaWsComma u = false := by
  obtain ⟨x, y, hxy⟩ := hiv
  subst hxy
  rw [List.append_assoc] at h
  have h2 : hasCommaWsComma (u ++ y) = false := hcwc_suffix_false x _ h
  cases hcu : hasCommaWsComma u with
  | false => rfl
  | true => simp [hcwc_append_right u y hcu] at h2

theorem hcbc_infix_false (u v : Str) (hiv : u <:+: v) (h : hasCommaBeforeClose v = false) :
    hasCommaBeforeClose u = false := by
  obtain ⟨x, y, hxy⟩ := hiv
  subst hxy
  rw [List.append_assoc] at h
  have h2 : hasCommaBeforeClose (u ++ y) = false := hcbc_suffix_false x _ h
  cases hcu : hasCommaBeforeClose u with
  | false => rfl
  | true => simp [hcbc_append_right u y hcu] at h2

theorem pySlice_within (s : Str) (a : Nat) (b : Int) : Py.pySlice s a b <:+: s := by
  simp only [Py.pySlice]
  split
  all_goals split
  all_goals
    first
      | exact List.nil_infix
      | exact ((List.drop_suffix a _).isInfix).trans ((List.take_prefix _ s).isInfix)

theorem fenceStrip_within (c : Str) : MG.fenceStrip c <:+: c := by
  unfold MG.fenceStrip
  split
  · exact pySlice_within c _ _
  · split
    · exact pySlice_within c _ _
    · exact List.infix_refl c

theorem braceExtract_within (c : Str) : MG.braceExtract c <:+: c := by
  unfold MG.braceExtract
  split
  · split
    · exact pySlice_within c _ _
    · exact List.infix_refl c
  · exact List.infix_refl c

theorem strip_within (v : Str) : Py.strip v <:+: v := by
  unfold Py.strip
  have h0 : (v.dropWhile Py.isSpace).reverse.dropWhile Py.isSpace <:+
      (v.dropWhile Py.isSpace).reverse := List.dropWhile_suffix _
  have h1 : ((v.dropWhile Py.isSpace).reverse.dropWhile Py.isSpace).reverse <+:
      (v.dropWhile Py.isSpace).reverse.reverse := List.reverse_prefix.mpr h0
  rw [List.reverse_reverse] at h1
  exact h1.isInfix.trans (List.dropWhile_suffix _).isInfix

theorem nlr_space (c : Char) :
    Py.isSpace (if c = '\n' then ' ' else if c = '\t' then ' ' else c) = Py.isSpace c := by
  by_cases h1 : c = '\n'
  · subst h1; decide
  · rw [if_neg h1]
    by_cases h2 : c = '\t'
    · subst h2; decide
    · rw [if_neg h2]

theorem nlr_comma (c : Char) :
    decide ((if c = '\n' then ' ' else if c = '\t' then ' ' else c) = ',') =
      decide (c = ',') := by
  by_cases h1 : c = '\n'
  · subst h1; decide
  · rw [if_neg h1]
    by_cases h2 : c = '\t'
    · subst h2; decide
    · rw [if_neg h2]

theorem hcwc_nlReplace (u : Str) : hasCommaWsComma (MG.nlReplace u) = hasCommaWsComma u := by
  induction u with
  | nil => rfl
  | cons c t ih =>
    simp only [MG.nlReplace, List.map_cons] at ih ⊢
    simp only [hasCommaWsComma]
    rw [List.dropWhile_map]
    have hpf : (Py.isSpace ∘ fun c => if c = '\n' then ' ' else if c = '\t' then ' ' else c) =
        Py.isSpace := funext nlr_space
    rw [hpf]
    refine congrArg₂ (fun a b => a || b) (congrArg₂ (fun a b => a && b) ?_ ?_) ?_
    · exact nlr_comma c
    · cases hdw : t.dropWhile Py.isSpace with
      | nil => rfl
      | cons c2 r => exact nlr_comma c2
    · exact ih

theorem clean_no_trailing_comma (s : Str) (h : hasCommaWsComma s = false) :
    hasCommaBeforeClose (MG.cleanJsonResponse s) = false := by
  unfold MG.cleanJsonResponse
  have h1 : hasCommaWsComma (MG.braceExtract (MG.fenceStrip s)) = false :=
    hcwc_infix_false _ _ ((braceExtract_within _).trans (fenceStrip_within s)) h
  have h2 : hasCommaWsComma (MG.nlReplace (MG.braceExtract (MG.fenceStrip s))) = false :=
    (hcwc_nlReplace _).trans h1
  have h3 : hasCommaBeforeClose
      (MG.rtc (MG.nlReplace (MG.braceExtract (MG.fenceStrip s)))) = false := by
    unfold MG.rtc
    exact (rtc_core (MG.nlReplace (MG.braceExtract (MG.fenceStrip s))).length _ le_rfl).1 h2
  exact hcbc_infix_false _ _ (strip_within _) h3

theorem prefix_drop_ticks : ∀ (pat : Str), '`' ∉ pat →
    ∀ s : Str, pat.isPrefixOf (s ++ MG.fticks) = true → pat.isPrefixOf s = true := by
  intro pat
  induction pat with
  | nil => intro _ s _; cases s <;> rfl
  | cons p ps ih =>
    intro hp s h
    cases s with
    | nil =>
      exfalso
      have hp1 : p ≠ '`' := fun he => hp (he ▸ List.mem_cons_self p ps)
      rw [List.nil_append] at h
      rw [show MG.fticks = ['`', '`', '`'] from rfl] at h
      simp only [List.isPrefixOf, Bool.and_eq_true, beq_iff_eq] at h
      exact hp1 h.1
    | cons a as =>
      rw [List.cons_append] at h
      simp only [List.isPrefixOf, Bool.and_eq_true] at h ⊢
      exact ⟨h.1, ih (fun hc => hp (List.mem_cons_of_mem p hc)) as h.2⟩

theorem no_bq_sub (rest s : Str) (hb : '`' ∉ s) :
    ∀ i, Py.subAt ('`' :: rest) s i = false := by
  intro i
  unfold Py.subAt
  cases hd : s.drop i with
  | nil => rfl
  | cons a u =>
    have ha : a ∈ s := List.drop_subset i s (hd ▸ List.mem_cons_self a u)
    have ha' : ('`' : Char) ≠ a := fun he => hb (by rw [he]; exact ha)
    simp [List.isPrefixOf, beq_iff_eq, ha']

theorem pyFind_none (needle hay : Str) (h : ∀ i, Py.subAt needle hay i = false) :
    Py.pyFind needle hay = none := by
  unfold Py.pyFind
  rw [List.find?_eq_none]
  intro x _
  simp [h x]

theorem pyFind_zero (needle hay : Str) (h : Py.subAt needle hay 0 = true) :
    Py.pyFind needle hay = some 0 := by
  unfold Py.pyFind
  rw [List.range_succ_eq_map]
  exact List.find?_cons_of_pos _ h

theorem find_rev_range (f : Nat → Bool) :
    ∀ (m i : Nat), i ≤ m → f i = true → (∀ j, i < j → j ≤ m → f j = false) →
    (List.range (m + 1)).reverse.find? f = some i := by
  intro m
  induction m with
  | zero =>
    intro i him hi _
    have : i = 0 := Nat.le_zero.mp him
    subst this
    simp [List.find?, hi]
  | succ m ih =>
    intro i him hi hj
    rw [List.range_succ, List.reverse_append]
    by_cases he : i = m + 1
    · subst he
      simp only [List.reverse_cons, List.reverse_nil, List.nil_append, List.cons_append]
      exact List.find?_cons_of_pos _ hi
    · have hile : i ≤ m := by omega
      have hfm : f (m + 1) = false := hj (m + 1) (by omega) (by omega)
      simp only [List.reverse_cons, List.reverse_nil, List.nil_append, List.cons_append]
      rw [List.find?_cons_of_neg _ (by simp [hfm])]
      exact ih i hile hi (fun j h1 h2 => hj j h1 (by omega))

theorem no_fjson_wrap (s : Str) (hb : '`' ∉ s) (hj : ¬ (sk "json").isPrefixOf s = true) :
    ∀ i, Py.subAt MG.fjson (wrapFence s) i = false := by
  have hw : wrapFence s = '`' :: '`' :: '`' :: (s ++ MG.fticks) := rfl
  intro i
  rw [hw]
  unfold Py.subAt
  match i with
  | 0 =>
    rw [List.drop_zero, show MG.fjson = '`' :: '`' :: '`' :: sk "json" from rfl]
    simp only [List.isPrefixOf, Bool.and_eq_true, beq_self_eq_true, true_and]
    cases hpre : (sk "json").isPrefixOf (s ++ MG.fticks) with
    | false => simp
    | true => exact absurd (prefix_drop_ticks _ (by decide) s hpre) hj
  | 1 =>
    cases s with
    | nil => rfl
    | cons a as =>
      have ha : ('`' : Char) ≠ a := fun he => hb (by rw [he]; exact List.mem_cons_self a as)
      show MG.fjson.isPrefixOf ('`' :: '`' :: a :: (as ++ MG.fticks)) = false
      rw [show MG.fjson = '`' :: '`' :: '`' :: sk "json" from rfl]
      simp [List.isPrefixOf, beq_iff_eq, ha]
  | 2 =>
    cases s with
    | nil => rfl
    | cons a as =>
      have ha : ('`' : Char) ≠ a := fun he => hb (by rw [he]; exact List.mem_cons_self a as)
      show MG.fjson.isPrefixOf ('`' :: a :: (as ++ MG.fticks)) = false
      rw [show MG.fjson = '`' :: '`' :: '`' :: sk "json" from rfl]
      simp [List.isPrefixOf, beq_iff_eq, ha]
  | (j + 3) =>
    show MG.fjson.isPrefixOf ((s ++ MG.fticks).drop j) = false
    by_cases hjs : j < s.length
    · rw [List.drop_append_of_le_length (Nat.le_of_lt hjs)]
      cases hsd : s.drop j with
      | nil =>
        exfalso
        have hlen := congrArg List.length hsd
        simp only [List.length_drop, List.length_nil] at hlen
        omega
      | cons b bs =>
        have hbmem : b ∈ s := List.drop_subset j s (hsd ▸ List.mem_cons_self b bs)
        have hb' : ('`' : Char) ≠ b := fun he => hb (by rw [he]; exact hbmem)
        rw [List.cons_append, show MG.fjson = '`' :: sk "``json" from rfl]
        simp [List.isPrefixOf, beq_iff_eq, hb']
    · have hge : s.length ≤ j := Nat.le_of_not_lt hjs
      cases hpre : MG.fjson.isPrefixOf ((s ++ MG.fticks).drop j) with
      | false => rfl
      | true =>
        exfalso
        have hle := (List.isPrefixOf_iff_prefix.mp hpre).length_le
        rw [show MG.fjson.length = 7 from rfl, List.length_drop, List.length_append,
          show MG.fticks.length = 3 from rfl] at hle
        omega

theorem pyRFind_wrap (s : Str) :
    Py.pyRFind MG.fticks (wrapFence s) = some (3 + s.length) := by
  unfold Py.pyRFind
  have hlenw : (wrapFence s).length = 3 + s.length + 3 := by
    simp [wrapFence, sk]
    omega
  rw [show (wrapFence s).length + 1 = (3 + s.length + 3) + 1 from by rw [hlenw]]
  refine find_rev_range _ (3 + s.length + 3) (3 + s.length) (by omega) ?_ ?_
  · -- occurrence at the closing fence
    unfold Py.subAt
    have hdw : (wrapFence s).drop (3 + s.length) = MG.fticks := by
      have h1 : wrapFence s = (MG.fticks ++ s) ++ MG.fticks := rfl
      rw [h1, show 3 + s.length = (MG.fticks ++ s).length from by simp [MG.fticks]; omega]
      exact List.drop_left _ _
    rw [hdw]
    rfl
  · intro j h1 h2
    unfold Py.subAt
    cases hpre : MG.fticks.isPrefixOf ((wrapFence s).drop j) with
    | false => rfl
    | true =>
      exfalso
      have hle := (List.isPrefixOf_iff_prefix.mp hpre).length_le
      rw [show MG.fticks.length = 3 from rfl, List.length_drop, hlenw] at hle
      omega

theorem pySlice_wrap (s : Str) :
    Py.pySlice (wrapFence s) 3 ((3 + s.length : Nat) : Int) = s := by
  cases s with
  | nil => rfl
  | cons a as =>
    simp only [Py.pySlice]
    rw [if_neg (not_lt.mpr (Int.natCast_nonneg _) :
        ¬ (((3 + (a :: as).length : Nat) : Int) < 0)),
      if_neg (not_le.mpr (Nat.cast_lt.mpr (by simp [List.length_cons])) :
        ¬ (((3 + (a :: as).length : Nat) : Int) ≤ ((3 : Nat) : Int)))]
    have hbt : (((3 + (a :: as).length : Nat) : Int)).toNat = 3 + (a :: as).length := by
      omega
    rw [hbt, show wrapFence (a :: as) = (MG.fticks ++ (a :: as)) ++ MG.fticks from rfl,
      show 3 + (a :: as).length = (MG.fticks ++ (a :: as)).length from by
        simp [MG.fticks]; omega,
      List.take_left]
    exact List.drop_left MG.fticks (a :: as)

theorem fenceStrip_nobq (s : Str) (hb : '`' ∉ s) : MG.fenceStrip s = s := by
  have h1 : Py.containsSub MG.fjson s = false := by
    unfold Py.containsSub
    rw [pyFind_none MG.fjson s (no_bq_sub (sk "``json") s hb)]
    rfl
  have h2 : Py.containsSub MG.fticks s = false := by
    unfold Py.containsSub
    rw [pyFind_none MG.fticks s (no_bq_sub (sk "``") s hb)]
    rfl
  unfold MG.fenceStrip
  rw [if_neg (by simp [h1]), if_neg (by simp [h2])]

theorem fenceStrip_wrap (s : Str) (hb : '`' ∉ s) (hj : ¬ (sk "json").isPrefixOf s = true) :
    MG.fenceStrip (wrapFence s) = s := by
  have h1 : Py.containsSub MG.fjson (wrapFence s) = false := by
    unfold Py.containsSub
    rw [pyFind_none MG.fjson (wrapFence s) (no_fjson_wrap s hb hj)]
    rfl
  have hsub0 : Py.subAt MG.fticks (wrapFence s) 0 = true := by
    unfold Py.subAt
    rw [List.drop_zero, show wrapFence s = '`' :: '`' :: '`' :: (s ++ MG.fticks) from rfl]
    simp [List.isPrefixOf]
  have h0 : Py.pyFind MG.fticks (wrapFence s) = some 0 := pyFind_zero _ _ hsub0
  have h2 : Py.containsSub MG.fticks (wrapFence s) = true := by
    unfold Py.containsSub
    rw [h0]
    rfl
  unfold MG.fenceStrip
  rw [if_neg (by simp [h1]), if_pos (by simp [h2]), h0, pyRFind_wrap s]
  show Py.pySlice (wrapFence s) (0 + 3) ((3 + s.length : Nat) : Int) = s
  rw [Nat.zero_add]
  exact pySlice_wrap s

theorem clean_wrap (s : Str) (hb : '`' ∉ s) (hj : ¬ (sk "json").isPrefixOf s = true) :
    MG.cleanJsonResponse (wrapFence s) = MG.cleanJsonResponse s := by
  unfold MG.cleanJsonResponse
  rw [fenceStrip_wrap s hb hj, fenceStrip_nobq s hb]

/-- C7 counterexample: (i) wrapping `"a\nb"` in bare triple-backtick
fences does not sanitize to the unwrapped content, because the newline is
replaced by a space; (ii) the single-pass trailing-comma regex misses the
comma exposed by its own first removal, so a comma before a closing
bracket survives in the output on input containing two adjacent commas. -/
theorem C7_sanitizer_counterexample :
    MG.cleanJsonResponse (wrapFence (sk "a\nb")) ≠ sk "a\nb" ∧
    hasCommaBeforeClose (MG.cleanJsonResponse (sk "\x7b[,,]\x7d")) = true :=
  ⟨by decide, by decide⟩

/-- C7 (amended): for every string with no backtick and not starting with
"json", sanitizing it wrapped in triple-backtick fences yields the same
output as sanitizing the unwrapped content; and for every input in which
no comma is followed (through whitespace) by another comma, the
sanitizer's output contains no comma immediately preceding (up to
whitespace) a closing brace or bracket. -/
theorem C7_sanitizer (s u : Str)
    (hb : '`' ∉ s) (hj : ¬ (sk "json").isPrefixOf s = true)
    (hu : hasCommaWsComma u = false) :
    MG.cleanJsonResponse (wrapFence s) = MG.cleanJsonResponse s ∧
    hasCommaBeforeClose (MG.cleanJsonResponse u) = false :=
  ⟨clean_wrap s hb hj, clean_no_trailing_comma u hu⟩

/-- C7 witness: a concrete JSON object body and an input with a single
trailing comma. -/
theorem C7_sanitizer_witness :
    MG.cleanJsonResponse (wrapFence (sk "\x7b\"a\":1\x7d")) =
      MG.cleanJsonResponse (sk "\x7b\"a\":1\x7d") ∧
    hasCommaBeforeClose (MG.cleanJsonResponse (sk "\x7b\"a\":1,\x7d")) = false :=
  C7_sanitizer (sk "\x7b\"a\":1\x7d") (sk "\x7b\"a\":1,\x7d")
    (by decide) (by decide) (by decide)

theorem charOfNat_toNat (n : Nat) (h : n < 55296) : (Char.ofNat n).toNat = n := by
  have hv : n.isValidChar := Or.inl h
  rw [Char.ofNat, dif_pos hv]
  rfl

theorem upChar_preserve (c : Char) (h : c ≠ '<') : Py.upChar c ≠ '<' := by
  unfold Py.upChar
  split
  · rename_i hr
    obtain ⟨h1, h2⟩ := hr
    rw [Char.le_def] at h1 h2
    have h1' : 97 ≤ c.toNat := h1
    have h2' : c.toNat ≤ 122 := h2
    intro he
    have hc := congrArg Char.toNat he
    rw [charOfNat_toNat (c.toNat - 32) (by omega)] at hc
    rw [show ('<' : Char).toNat = 60 from rfl] at hc
    omega
  · exact h

theorem lowChar_preserve (c : Char) (h : c ≠ '<') : Py.lowChar c ≠ '<' := by
  unfold Py.lowChar
  split
  · rename_i hr
    obtain ⟨h1, h2⟩ := hr
    rw [Char.le_def] at h1 h2
    have h1' : 65 ≤ c.toNat := h1
    have h2' : c.toNat ≤ 90 := h2
    intro he
    have hc := congrArg Char.toNat he
    rw [charOfNat_toNat (c.toNat + 32) (by omega)] at hc
    rw [show ('<' : Char).toNat = 60 from rfl] at hc
    omega
  · exact h

theorem titleGo_mem (c : Char) : ∀ (s : Str) (b : Bool), c ∈ Py.titleGo b s →
    ∃ d ∈ s, c = d ∨ c = Py.upChar d ∨ c = Py.lowChar d := by
  intro s
  induction s with
  | nil => intro b h; exact absurd h (List.not_mem_nil c)
  | cons a t ih =>
    intro b h
    unfold Py.titleGo at h
    split at h
    · rcases List.mem_cons.mp h with h1 | h2
      · refine ⟨a, List.mem_cons_self a t, ?_⟩
        cases b
        · right; left; simpa using h1
        · right; right; simpa using h1
      · obtain ⟨d, hd, ho⟩ := ih true h2
        exact ⟨d, List.mem_cons_of_mem a hd, ho⟩
    · rcases List.mem_cons.mp h with h1 | h2
      · exact ⟨a, List.mem_cons_self a t, Or.inl h1⟩
      · obtain ⟨d, hd, ho⟩ := ih false h2
        exact ⟨d, List.mem_cons_of_mem a hd, ho⟩

theorem title_no_lt (s : Str) (h : '<' ∉ s) : '<' ∉ Py.title s := by
  intro hmem
  obtain ⟨d, hd, ho⟩ := titleGo_mem '<' s false hmem
  have hdne : d ≠ '<' := fun he => h (by rw [← he]; exact hd)
  rcases ho with h1 | h1 | h1
  · exact hdne h1.symm
  · exact upChar_preserve d hdne h1.symm
  · exact lowChar_preserve d hdne h1.symm

theorem joinSpace_mem (c : Char) : ∀ ws : List Str, c ∈ Py.joinSpace ws →
    (∃ w ∈ ws, c ∈ w) ∨ c = ' ' := by
  intro ws
  induction ws with
  | nil => intro h; exact absurd h (List.not_mem_nil c)
  | cons w rest ih =>
    intro h
    cases rest with
    | nil => exact Or.inl ⟨w, List.mem_cons_self w [], h⟩
    | cons w2 rest2 =>
      rw [show Py.joinSpace (w :: w2 :: rest2) = w ++ ' ' :: Py.joinSpace (w2 :: rest2)
        from rfl] at h
      rcases List.mem_append.mp h with h1 | h2
      · exact Or.inl ⟨w, List.mem_cons_self w _, h1⟩
      · rcases List.mem_cons.mp h2 with h3 | h4
        · exact Or.inr h3
        · rcases ih h4 with ⟨w3, hw3, hc⟩ | hsp
          · exact Or.inl ⟨w3, List.mem_cons_of_mem w hw3, hc⟩
          · exact Or.inr hsp

theorem splitWsGo_mem (c : Char) : ∀ (s cur : Str) (w : Str),
    w ∈ Py.splitWsGo cur s → c ∈ w → c ∈ cur ∨ c ∈ s := by
  intro s
  induction s with
  | nil =>
    intro cur w hw hc
    unfold Py.splitWsGo at hw
    split at hw
    · exact absurd hw (List.not_mem_nil w)
    · rw [List.mem_singleton.mp hw] at hc
      exact Or.inl (List.mem_reverse.mp hc)
  | cons a t ih =>
    intro cur w hw hc
    unfold Py.splitWsGo at hw
    split at hw
    · split at hw
      · rcases ih [] w hw hc with h1 | h1
        · exact absurd h1 (List.not_mem_nil c)
        · exact Or.inr (List.mem_cons_of_mem a h1)
      · rcases List.mem_cons.mp hw with h1 | h2
        · rw [h1] at hc
          exact Or.inl (List.mem_reverse.mp hc)
        · rcases ih [] w h2 hc with h1 | h1
          · exact absurd h1 (List.not_mem_nil c)
          · exact Or.inr (List.mem_cons_of_mem a h1)
    · rcases ih (a :: cur) w hw hc with h1 | h1
      · rcases List.mem_cons.mp h1 with h2 | h3
        · exact Or.inr (by rw [h2]; exact List.mem_cons_self a t)
        · exact Or.inl h3
      · exact Or.inr (List.mem_cons_of_mem a h1)

theorem mainTopic_no_lt (p : Str) (hp : '<' ∉ p) : '<' ∉ MG.mainTopicOf p := by
  unfold MG.mainTopicOf
  apply title_no_lt
  intro hmem
  rcases joinSpace_mem '<' _ hmem with ⟨w, hw, hc⟩ | hsp
  · have hw2 : w ∈ Py.splitWs p := List.take_subset 4 _ hw
    rcases splitWsGo_mem '<' p [] w hw2 hc with h1 | h1
    · exact absurd h1 (List.not_mem_nil '<')
    · exact hp h1
  · exact absurd hsp (by decide)

theorem classifyDomain_cases (p : Str) :
    MG.classifyDomain p = sk "machine_learning" ∨
    MG.classifyDomain p = sk "software_architecture" ∨
    MG.classifyDomain p = sk "business_strategy" ∨
    MG.classifyDomain p = sk "education" ∨
    MG.classifyDomain p = sk "general" := by
  simp only [MG.classifyDomain]
  by_cases h1 : MG.mlWords.any (fun w => Py.containsSub w (Py.lower p)) = true
  · rw [if_pos h1]; exact Or.inl rfl
  · rw [if_neg h1]
    by_cases h2 : MG.saWords.any (fun w => Py.containsSub w (Py.lower p)) = true
    · rw [if_pos h2]; exact Or.inr (Or.inl rfl)
    · rw [if_neg h2]
      by_cases h3 : MG.bizWords.any (fun w => Py.containsSub w (Py.lower p)) = true
      · rw [if_pos h3]; exact Or.inr (Or.inr (Or.inl rfl))
      · rw [if_neg h3]
        by_cases h4 : MG.eduWords.any (fun w => Py.containsSub w (Py.lower p)) = true
        · rw [if_pos h4]; exact Or.inr (Or.inr (Or.inr (Or.inl rfl)))
        · rw [if_neg h4]; exact Or.inr (Or.inr (Or.inr (Or.inr rfl)))

theorem desc_no_lt (p : Str) :
    '<' ∉ sk "Comprehensive " ++ MG.domainSpaced (MG.classifyDomain p) ++
      sk " implementation covering all critical aspects" := by
  rcases classifyDomain_cases p with h | h | h | h | h <;> rw [h] <;> decide

theorem conceptSafe_proc (n : Nat) (mt dom : Str) (i : Nat) (p : Str) :
    conceptSafeB (MG.procConcept n mt dom i p) = true := by
  by_cases h : i < n - 1
  · unfold MG.procConcept
    rw [if_pos h]
    rfl
  · unfold MG.procConcept
    rw [if_neg h]
    rfl

theorem fallbackSafe_intelligent (p : Str) :
    fallbackSafeB (MG.createIntelligentFallback p) = true := by
  have hform : fallbackSafeB (MG.createIntelligentFallback p) =
      ((MG.rootConcept (MG.mainTopicOf p) (MG.domainSpaced (MG.classifyDomain p))
          (MG.classifyDomain p) ::
        (MG.processFlowOf p).enum.map (fun q =>
          MG.procConcept (MG.processFlowOf p).length (MG.mainTopicOf p)
            (MG.classifyDomain p) q.1 q.2)).all conceptSafeB &&
       ((MG.processFlowOf p).enum.map (fun q =>
          MG.stageRel (MG.processFlowOf p) q.1 q.2)).all relSafeB) := rfl
  rw [hform, Bool.and_eq_true]
  refine ⟨?_, ?_⟩
  · rw [List.all_cons, Bool.and_eq_true]
    refine ⟨rfl, ?_⟩
    rw [List.all_eq_true]
    intro c hc
    obtain ⟨q, _, hqe⟩ := List.mem_map.mp hc
    rw [← hqe]
    exact conceptSafe_proc _ _ _ _ _
  · rw [List.all_eq_true]
    intro r hr
    obtain ⟨q, _, hqe⟩ := List.mem_map.mp hr
    rw [← hqe]
    rfl

theorem fallback_structure_fields (d st : Json)
    (h : MG.createDetailedFallbackStructure d = .ok st) :
    ∃ title description,
      Json.getDefault d (sk "main_topic") (njs "Mindmap") = .ok title ∧
      Json.getDefault d (sk "topic_description")
        (njs "Comprehensive system analysis") = .ok description ∧
      jGet st (sk "title") = some title ∧
      jGet st (sk "description") = some description := by
  unfold MG.createDetailedFallbackStructure at h
  obtain ⟨title, h1, h⟩ := (exBind_ok _ _ _).mp h
  obtain ⟨description, h2, h⟩ := (exBind_ok _ _ _).mp h
  obtain ⟨concepts, h3, h⟩ := (exBind_ok _ _ _).mp h
  obtain ⟨domain, h4, h⟩ := (exBind_ok _ _ _).mp h
  obtain ⟨workflow, h5, h⟩ := (exBind_ok _ _ _).mp h
  obtain ⟨nodes, h6, h⟩ := (exBind_ok _ _ _).mp h
  obtain ⟨rels, h7, h⟩ := (exBind_ok _ _ _).mp h
  obtain ⟨relElems, h8, h⟩ := (exBind_ok _ _ _).mp h
  obtain ⟨edges, h9, h⟩ := (exBind_ok _ _ _).mp h
  obtain ⟨complexity, h10, h⟩ := (exBind_ok _ _ _).mp h
  obtain ⟨lv, hlv, h⟩ := (exBind_ok _ _ _).mp h
  obtain ⟨mx, hmx, h⟩ := (exBind_ok _ _ _).mp h
  simp only [pure, Except.pure, Except.ok.injEq] at h
  subst h
  exact ⟨title, description, h1, h2, rfl, rfl⟩

theorem generate_allfail (p ts : Str) :
    ∃ stf,
      MG.createDetailedFallbackStructure (MG.createIntelligentFallback p) =
        .ok (Json.obj stf) ∧
      (Json.lookupF stf (sk "title")).getD (njs "Mindmap") =
        Json.str (MG.mainTopicOf p) ∧
      (Json.lookupF stf (sk "description")).getD (njs "Comprehensive mindmap") =
        Json.str (sk "Comprehensive " ++ MG.domainSpaced (MG.classifyDomain p) ++
          sk " implementation covering all critical aspects") ∧
      MG.generateMindmap failOracle p ts =
        .ok (MG.fallbackXmlText (MG.mainTopicOf p)
          (sk "Comprehensive " ++ MG.domainSpaced (MG.classifyDomain p) ++
            sk " implementation covering all critical aspects") ts p) := by
  have hsafe := fallbackSafe_intelligent p
  obtain ⟨cl, workflow, nds, stf, _, _, hcreate, _, _, _, _⟩ :=
    fallback_structure_core (MG.createIntelligentFallback p) hsafe
  obtain ⟨title, description, h1, h2, h3, h4⟩ := fallback_structure_fields _ _ hcreate
  have ht : title = Json.str (MG.mainTopicOf p) := by
    have he : Json.getDefault (MG.createIntelligentFallback p) (sk "main_topic")
        (njs "Mindmap") = .ok (Json.str (MG.mainTopicOf p)) := rfl
    rw [he] at h1
    exact (Except.ok.injEq _ _ ▸ h1).symm
  have hd : description = Json.str
      (sk "Comprehensive " ++ MG.domainSpaced (MG.classifyDomain p) ++
        sk " implementation covering all critical aspects") := by
    have he : Json.getDefault (MG.createIntelligentFallback p) (sk "topic_description")
        (njs "Comprehensive system analysis") = .ok (Json.str
          (sk "Comprehensive " ++ MG.domainSpaced (MG.classifyDomain p) ++
            sk " implementation covering all critical aspects")) := rfl
    rw [he] at h2
    exact (Except.ok.injEq _ _ ▸ h2).symm
  have hlkt : (Json.lookupF stf (sk "title")).getD (njs "Mindmap") =
      Json.str (MG.mainTopicOf p) := by
    have : jGet (Json.obj stf) (sk "title") = Json.lookupF stf (sk "title") := rfl
    rw [this] at h3
    rw [h3, Option.getD_some, ht]
  have hlkd : (Json.lookupF stf (sk "description")).getD (njs "Comprehensive mindmap") =
      Json.str (sk "Comprehensive " ++ MG.domainSpaced (MG.classifyDomain p) ++
        sk " implementation covering all critical aspects") := by
    have : jGet (Json.obj stf) (sk "description") = Json.lookupF stf (sk "description") := rfl
    rw [this] at h4
    rw [h4, Option.getD_some, hd]
  refine ⟨stf, hcreate, hlkt, hlkd, ?_⟩
  have hst2 : MG.structureKnowledgeDetailed failOracle 3 (MG.createIntelligentFallback p) =
      (MG.createDetailedFallbackStructure (MG.createIntelligentFallback p), 6) := rfl
  rw [hcreate] at hst2
  have hst3 : MG.generateDetailedXml failOracle 6 (Json.obj stf) p ts =
      (MG.createDetailedFallbackXml (Json.obj stf) p ts, 7) := rfl
  rw [createDetailedFallbackXml_ok] at hst3
  simp only [MG.generateMindmap,
    show MG.parseConceptsDetailed failOracle p = (MG.createIntelligentFallback p, 3)
      from rfl, hst2, hst3]
  rw [show pyStrJ ((Json.lookupF stf (sk "title")).getD (njs "Mindmap")) =
      MG.mainTopicOf p from by rw [hlkt]; rfl]
  rw [show pyStrJ ((Json.lookupF stf (sk "description")).getD (njs "Comprehensive mindmap")) =
      sk "Comprehensive " ++ MG.domainSpaced (MG.classifyDomain p) ++
        sk " implementation covering all critical aspects" from by rw [hlkd]; rfl]
  rfl

theorem isPrefixOf_append_of_le : ∀ (pat u y : Str), pat.length ≤ u.length →
    pat.isPrefixOf (u ++ y) = pat.isPrefixOf u := by
  intro pat
  induction pat with
  | nil => intro u y _; cases u <;> simp [List.isPrefixOf]
  | cons p pr ih =>
    intro u y hlen
    cases u with
    | nil => simp at hlen
    | cons a u' =>
      rw [List.cons_append]
      simp only [List.isPrefixOf]
      rw [ih u' y (by simpa using hlen)]

theorem prefix_compat : ∀ (pat u y : Str), pat.isPrefixOf (u ++ y) = true →
    u.length ≤ pat.length → u.isPrefixOf pat = true := by
  intro pat
  induction pat with
  | nil =>
    intro u y h hlen
    have : u = [] := List.eq_nil_of_length_eq_zero (Nat.le_zero.mp hlen)
    rw [this]
    rfl
  | cons p pr ih =>
    intro u y h hlen
    cases u with
    | nil => rfl
    | cons a u' =>
      rw [List.cons_append] at h
      simp only [List.isPrefixOf, Bool.and_eq_true] at h ⊢
      refine ⟨?_, ih u' y h.2 (by simpa using hlen)⟩
      rw [beq_iff_eq] at h ⊢
      exact h.1.symm

theorem cntOcc_nil_pat (pat : Str) (hne : pat ≠ []) : cntOcc pat [] = 0 := by
  cases pat with
  | nil => exact absurd rfl hne
  | cons c t => rfl

theorem cntOcc_lit_split (pat : Str) (hne : pat ≠ []) :
    ∀ (x y : Str),
      (∀ i, i < x.length → x.length - i < pat.length →
        ((x.drop i).isPrefixOf pat) = false) →
      cntOcc pat (x ++ y) = cntOcc pat x + cntOcc pat y := by
  intro x
  induction x with
  | nil =>
    intro y _
    rw [List.nil_append, cntOcc_nil_pat pat hne]
    omega
  | cons c x' ih =>
    intro y hB
    rw [List.cons_append]
    simp only [cntOcc]
    have hB' : ∀ i, i < x'.length → x'.length - i < pat.length →
        ((x'.drop i).isPrefixOf pat) = false := by
      intro i hi1 hi2
      have := hB (i + 1) (by simp only [List.length_cons]; omega)
        (by simp only [List.length_cons]; omega)
      simpa using this
    rw [ih y hB']
    have hif : pat.isPrefixOf (c :: (x' ++ y)) = pat.isPrefixOf (c :: x') := by
      by_cases hlen : pat.length ≤ (c :: x').length
      · have h2 := isPrefixOf_append_of_le pat (c :: x') y hlen
        rw [show (c :: x') ++ y = c :: (x' ++ y) from rfl] at h2
        exact h2
      · push_neg at hlen
        have hBc : ((c :: x').isPrefixOf pat) = false := by
          have := hB 0 (by simp) (by simpa using hlen)
          simpa using this
        cases hL : pat.isPrefixOf (c :: (x' ++ y)) with
        | false =>
          cases hR : pat.isPrefixOf (c :: x') with
          | false => rfl
          | true =>
            exfalso
            have hl := (List.isPrefixOf_iff_prefix.mp hR).length_le
            simp only [List.length_cons] at hl hlen
            omega
        | true =>
          exfalso
          have hcompat := prefix_compat pat (c :: x') y
            (by rw [show (c :: x') ++ y = c :: (x' ++ y) from rfl]; exact hL)
            (Nat.le_of_lt hlen)
          rw [hBc] at hcompat
          exact Bool.noConfusion hcompat
    rw [hif]
    omega

theorem cntOcc_hole (pr : Str) : ∀ (h y : Str), '<' ∉ h →
    cntOcc ('<' :: pr) (h ++ y) = cntOcc ('<' :: pr) y := by
  intro h
  induction h with
  | nil => intro y _; rfl
  | cons c t ih =>
    intro y hh
    have hc : ('<' : Char) ≠ c := fun he => hh (by rw [he]; exact List.mem_cons_self c t)
    rw [List.cons_append]
    simp only [cntOcc]
    have hpf : ('<' :: pr).isPrefixOf (c :: (t ++ y)) = false := by
      simp [List.isPrefixOf, beq_iff_eq, hc]
    rw [hpf, ih y (fun hd => hh (List.mem_cons_of_mem c hd))]
    simp

theorem cntOcc_fallbackXml (T D ts p : Str)
    (hT : '<' ∉ T) (hD : '<' ∉ D) (hts : '<' ∉ ts) (hp : '<' ∉ p) :
    cntOcc (sk "<node ") (MG.fallbackXmlText T D ts p) = 1 := by
  have hassoc : MG.fallbackXmlText T D ts p =
      MG.xmlSegA ++ (T ++ (MG.xmlSegB ++ (D ++ (MG.xmlSegC ++ (ts ++ (MG.xmlSegD ++
        (p ++ (MG.xmlSegE ++ (T ++ (MG.xmlSegF ++ (D ++ MG.xmlSegG))))))))))) := by
    simp [MG.fallbackXmlText, List.append_assoc]
  rw [show sk "<node " = '<' :: sk "node " from rfl, hassoc]
  rw [cntOcc_lit_split _ (by decide) MG.xmlSegA _ (by decide)]
  rw [cntOcc_hole _ T _ hT]
  rw [cntOcc_lit_split _ (by decide) MG.xmlSegB _ (by decide)]
  rw [cntOcc_hole _ D _ hD]
  rw [cntOcc_lit_split _ (by decide) MG.xmlSegC _ (by decide)]
  rw [cntOcc_hole _ ts _ hts]
  rw [cntOcc_lit_split _ (by decide) MG.xmlSegD _ (by decide)]
  rw [cntOcc_hole _ p _ hp]
  rw [cntOcc_lit_split _ (by decide) MG.xmlSegE _ (by decide)]
  rw [cntOcc_hole _ T _ hT]
  rw [cntOcc_lit_split _ (by decide) MG.xmlSegF _ (by decide)]
  rw [cntOcc_hole _ D _ hD]
  decide

theorem segD_within (T D ts p : Str) : MG.xmlSegD <:+: MG.fallbackXmlText T D ts p :=
  ⟨MG.xmlSegA ++ T ++ MG.xmlSegB ++ D ++ MG.xmlSegC ++ ts,
   p ++ MG.xmlSegE ++ T ++ MG.xmlSegF ++ D ++ MG.xmlSegG,
   by simp [MG.fallbackXmlText, List.append_assoc]⟩

theorem segE_within (T D ts p : Str) : MG.xmlSegE <:+: MG.fallbackXmlText T D ts p :=
  ⟨MG.xmlSegA ++ T ++ MG.xmlSegB ++ D ++ MG.xmlSegC ++ ts ++ MG.xmlSegD ++ p,
   T ++ MG.xmlSegF ++ D ++ MG.xmlSegG,
   by simp [MG.fallbackXmlText, List.append_assoc]⟩

theorem segG_within (T D ts p : Str) : MG.xmlSegG <:+: MG.fallbackXmlText T D ts p :=
  ⟨MG.xmlSegA ++ T ++ MG.xmlSegB ++ D ++ MG.xmlSegC ++ ts ++ MG.xmlSegD ++ p ++
     MG.xmlSegE ++ T ++ MG.xmlSegF ++ D, [],
   by simp [MG.fallbackXmlText, List.append_assoc]⟩

/-- C2 counterexample: with the service down for every call, a prompt
containing the text of a node tag is spliced verbatim into the fallback
document's `generation_context`, so the returned XML holds two `<node `
blocks, not one. -/
theorem C2_fallback_counterexample :
    ∃ s, MG.generateMindmap failOracle (sk "<node ") (sk "TS") = .ok s ∧
      cntOcc (sk "<node ") s = 2 :=
  ⟨sk "<?xml version=\"1.0\" encoding=\"UTF-8\"?>\n<mindmap version=\"2.0\" editable=\"true\">\n    <metadata>\n        <title><Node</title>\n        <description>Comprehensive general implementation covering all critical aspects</description>\n        <created_at>TS</created_at>\n        <layout_type>hierarchical</layout_type>\n        <domain>general</domain>\n        <complexity>intermediate</complexity>\n        <total_nodes>1</total_nodes>\n        <max_depth>0</max_depth>\n        <generation_context>Generated from: <node </generation_context>\n    </metadata>\n    <nodes>\n        <node id=\"root\" level=\"0\" category=\"core\" expanded=\"true\">\n            <content>\n                <title><Node</title>\n                <description>Comprehensive general implementation covering all critical aspects</description>\n            </content>\n            <position x=\"400\" y=\"300\" width=\"200\" height=\"80\"/>\n            <style color=\"#2c3e50\" shape=\"rectangle\" border=\"solid\"/>\n            <details>\n                <item>Core concept requiring systematic approach</item>\n                <item>Multiple interconnected components</item>\n            </details>\n            <processes>\n                <step>Initial analysis and planning</step>\n                <step>Implementation and execution</step>\n            </processes>\n            <considerations>\n                <point>Consider stakeholder requirements</point>\n                <point>Ensure scalable solution</point>\n            </considerations>\n        </node>\n    </nodes>\n    <edges>\n    </edges>\n</mindmap>", rfl, by decide⟩

/-- C2 (amended): if every service call fails and neither the prompt nor
the timestamp contains the character `<`, `generate_mindmap` returns the
stage-3 fallback document: exactly one node block, carrying id `root`,
an empty edge collection, metadata `total_nodes` 1, `max_depth` 0 and
domain `general`, and stage 4 passes the document through unchanged.
Without the `<`-freedom proviso the prompt can inject additional node
blocks through the `generation_context` field, as the counterexample
shows. -/
theorem C2_fallback_document (p ts : Str) (hp : '<' ∉ p) (hts : '<' ∉ ts) :
    ∃ xml, MG.generateMindmap failOracle p ts = .ok xml ∧
      cntOcc (sk "<node ") xml = 1 ∧
      sk "<node id=\"root\" level=\"0\" category=\"core\" expanded=\"true\">" <:+: xml ∧
      sk "<edges>\n    </edges>" <:+: xml ∧
      sk "<total_nodes>1</total_nodes>" <:+: xml ∧
      sk "<max_depth>0</max_depth>" <:+: xml ∧
      sk "<domain>general</domain>" <:+: xml ∧
      (∀ k, MG.validateXml failOracle k xml = (xml, k + 1)) := by
  obtain ⟨stf, hcreate, hlkt, hlkd, hgen⟩ := generate_allfail p ts
  refine ⟨_, hgen, ?_, ?_, ?_, ?_, ?_, ?_, fun k => rfl⟩
  · exact cntOcc_fallbackXml _ _ _ _ (mainTopic_no_lt p hp) (desc_no_lt p) hts hp
  · exact List.IsInfix.trans ⟨sk "</generation_context>\n    </metadata>\n    <nodes>\n        ", sk "\n            <content>\n                <title>", rfl⟩ (segE_within _ _ _ _)
  · exact List.IsInfix.trans ⟨sk "</description>\n            </content>\n            <position x=\"400\" y=\"300\" width=\"200\" height=\"80\"/>\n            <style color=\"#2c3e50\" shape=\"rectangle\" border=\"solid\"/>\n            <details>\n                <item>Core concept requiring systematic approach</item>\n                <item>Multiple interconnected components</item>\n            </details>\n            <processes>\n                <step>Initial analysis and planning</step>\n                <step>Implementation and execution</step>\n            </processes>\n            <considerations>\n                <point>Consider stakeholder requirements</point>\n                <point>Ensure scalable solution</point>\n            </considerations>\n        </node>\n    </nodes>\n    ", sk "\n</mindmap>", rfl⟩ (segG_within _ _ _ _)
  · exact List.IsInfix.trans ⟨sk "</created_at>\n        <layout_type>hierarchical</layout_type>\n        <domain>general</domain>\n        <complexity>intermediate</complexity>\n        ", sk "\n        <max_depth>0</max_depth>\n        <generation_context>Generated from: ", rfl⟩ (segD_within _ _ _ _)
  · exact List.IsInfix.trans ⟨sk "</created_at>\n        <layout_type>hierarchical</layout_type>\n        <domain>general</domain>\n        <complexity>intermediate</complexity>\n        <total_nodes>1</total_nodes>\n        ", sk "\n        <generation_context>Generated from: ", rfl⟩ (segD_within _ _ _ _)
  · exact List.IsInfix.trans ⟨sk "</created_at>\n        <layout_type>hierarchical</layout_type>\n        ", sk "\n        <complexity>intermediate</complexity>\n        <total_nodes>1</total_nodes>\n        <max_depth>0</max_depth>\n        <generation_context>Generated from: ", rfl⟩ (segD_within _ _ _ _)

/-- C2 witness: the spec's coffee-shop scenario with a concrete
timestamp. -/
theorem C2_fallback_document_witness :
    ∃ xml, MG.generateMindmap failOracle
        (sk "Explain how a coffee shop orders inventory")
        (sk "2024-01-01T00:00:00") = .ok xml ∧
      cntOcc (sk "<node ") xml = 1 ∧
      sk "<node id=\"root\" level=\"0\" category=\"core\" expanded=\"true\">" <:+: xml ∧
      sk "<edges>\n    </edges>" <:+: xml ∧
      sk "<total_nodes>1</total_nodes>" <:+: xml ∧
      sk "<max_depth>0</max_depth>" <:+: xml ∧
      sk "<domain>general</domain>" <:+: xml ∧
      (∀ k, MG.validateXml failOracle k xml = (xml, k + 1)) :=
  C2_fallback_document (sk "Explain how a coffee shop orders inventory")
    (sk "2024-01-01T00:00:00") (by decide) (by decide)
